import Mathlib

/-!
# A verification development for the it-chain engine

Shallow embedding of the stores of the engine and proofs about them:

* `consensus/pbft/state_repository.go`: the single-slot `StateRepository`
  (`Save`, `Load`, `Remove`), as sequential functions and as concurrent calls
  that step on a shared memory with a lock;
* `api_gateway/block_query_api.go`: the in-memory block pool
  `BlockPoolRepositoryImpl` (`AddCreatedBlock`, the lookups,
  `GetFirstStagedBlock`, `RemoveById`), the reads of
  `CommitedBlockRepositoryImpl` over an abstract storage engine, and the query
  surface `BlockQueryApi`;
* `api_gateway/connection_query_api.go`: the `ConnectionRepository` (`Save`,
  `Remove`, `FindByID`), its Go map as a function from keys to entries;
* the consensus factory (`CreateConsensus`, `ConstructConsensus`), of which the
  sources hold the test only.

Go methods with a pointer receiver become functions that take the receiver and
return the updated receiver next to the Go results. A Go `error` result is an
`Option`: `none` is `nil`. Locks are dropped: every function here is one
sequential call.
-/

set_option autoImplicit false

/-! ## Definitions -/

namespace Pbft

/-- The two error values declared in `state_repository.go`. -/
inductive PbftError where
  | ErrInvalidSave
  | ErrEmptyRepo
  deriving DecidableEq, Repr

/-- Modelled from the spec: the declaration of `StateID` is not among the
sources; `Save` and `Load` read its string field `ID`. -/
structure StateID where
  ID : String
  deriving DecidableEq, Repr

/-- Modelled from the spec: the declaration of `State` is not among the sources.
It is a round snapshot keyed by `StateID`; everything else it carries is the
field `Round` of an arbitrary type `σ`. -/
structure State (σ : Type) where
  StateID : StateID
  Round : σ
  deriving DecidableEq, Repr

/-- The Go zero value `State{}`: the id is the empty string. -/
def State.zero {σ : Type} [Inhabited σ] : State σ :=
  { StateID := { ID := "" }, Round := default }

/-- The struct `StateRepository`, without its lock. -/
structure StateRepository (σ : Type) where
  state : State σ
  deriving DecidableEq, Repr

/-- The function `NewStateRepository`. -/
def NewStateRepository {σ : Type} [Inhabited σ] : StateRepository σ :=
  { state := State.zero }

/-- The method `StateRepository.Save`: the repository after the call and the error. -/
def StateRepository.Save {σ : Type} (repo : StateRepository σ) (state : State σ) :
    StateRepository σ × Option PbftError :=
  let id := repo.state.StateID.ID
  if id = state.StateID.ID ∨ id = "" then
    ({ repo with state := state }, none)
  else
    (repo, some PbftError.ErrInvalidSave)

/-- The method `StateRepository.Load`: the repository after the call, the state returned
and the error. -/
def StateRepository.Load {σ : Type} (repo : StateRepository σ) :
    StateRepository σ × State σ × Option PbftError :=
  if repo.state.StateID.ID = "" then
    (repo, repo.state, some PbftError.ErrEmptyRepo)
  else
    (repo, repo.state, none)

/-- The method `StateRepository.Remove`. -/
def StateRepository.Remove {σ : Type} [Inhabited σ] (repo : StateRepository σ) :
    StateRepository σ :=
  { repo with state := State.zero }

/-- A run of `Save` calls, one per state of the list and in that order: the
repository after the last call and the error of each call. -/
def StateRepository.SaveAll {σ : Type} :
    StateRepository σ → List (State σ) → StateRepository σ × List (Option PbftError)
  | repo, [] => (repo, [])
  | repo, s :: ss =>
    let r := repo.Save s
    let rest := StateRepository.SaveAll r.1 ss
    (rest.1, r.2 :: rest.2)

end Pbft

namespace ApiGateway

/-- The error values declared in `block_query_api.go`. -/
inductive ApiError where
  | ErrGetCommitedBlock
  | ErrAddCommitingBlock
  | ErrNewBlockStorage
  | ErrNoStagedBlock
  | ErrInvalidStateBlock
  | ErrFailUpdateBlock
  | ErrFailRemoveBlock
  | ErrFailBlockTypeCasting
  deriving DecidableEq, Repr

/-- A Go byte slice: `none` is the nil slice, `some l` a slice holding the bytes
`l`. -/
abbrev Bytes := Option (List Nat)

/-- A Go string, as its sequence of bytes. -/
abbrev GoString := List Nat

/-- The Go conversion `string(b)` of a byte slice; the nil slice gives `""`. -/
def Bytes.toStr (b : Bytes) : GoString :=
  b.getD []

/-- Modelled from the spec: the block states of package `blockchain`, whose
declaration is not among the sources. `Created`, `Staged` and `Committed` are the
three states of the spec; `Unset` is the zero value of the state type, the state
that `DefaultBlock{}` carries. -/
inductive BlockState where
  | Unset
  | Created
  | Staged
  | Committed
  deriving DecidableEq, Repr

/-- Modelled from the spec: `blockchain.DefaultBlock`, whose declaration is not
among the sources, with the fields the spec lists. `Height` is a `uint64`; it is
only compared, never computed with, so it is a `Nat`. -/
structure DefaultBlock where
  Seal : Bytes
  PrevSeal : Bytes
  Height : Nat
  Body : List Nat
  State : BlockState
  deriving DecidableEq, Repr

/-- The Go zero value `blockchain.DefaultBlock{}`. -/
def DefaultBlock.zero : DefaultBlock :=
  { Seal := none, PrevSeal := none, Height := 0, Body := [], State := BlockState.Unset }

/-- Modelled from the spec: a value of the interface `blockchain.Block`, the
element type of the pool. It is a pointer to a `DefaultBlock`, or a value of some
other type implementing the interface, of which the pool reads the height and the
seal only. -/
inductive Block where
  | Default (b : DefaultBlock)
  | Foreign (height : Nat) (sealBytes : Bytes)
  deriving DecidableEq, Repr

/-- Modelled from the spec: the getter `GetHeight` of the interface. -/
def Block.GetHeight : Block → Nat
  | Block.Default b => b.Height
  | Block.Foreign height _ => height

/-- Modelled from the spec: the getter `GetSeal` of the interface. -/
def Block.GetSeal : Block → Bytes
  | Block.Default b => b.Seal
  | Block.Foreign _ sealBytes => sealBytes

/-- The struct `BlockPoolRepositoryImpl`. -/
structure BlockPoolRepositoryImpl where
  Blocks : List Block
  deriving DecidableEq, Repr

/-- The function `NewBlockPoolRepository`. -/
def NewBlockPoolRepository : BlockPoolRepositoryImpl :=
  { Blocks := [] }

/-- The function `validStateBlock`. -/
def validStateBlock (block : DefaultBlock) : Bool :=
  block.State == BlockState.Staged || block.State == BlockState.Created

/-- The method `BlockPoolRepositoryImpl.AddCreatedBlock`: the pool after the call and the
error. -/
def BlockPoolRepositoryImpl.AddCreatedBlock (r : BlockPoolRepositoryImpl)
    (block : DefaultBlock) : BlockPoolRepositoryImpl × Option ApiError :=
  if validStateBlock block then
    ({ r with Blocks := r.Blocks ++ [Block.Default block] }, none)
  else
    (r, some ApiError.ErrInvalidStateBlock)

/-- The loop of `GetStagedBlockByHeight` over the blocks still to visit. -/
def getStagedBlockByHeightLoop (height : Nat) : List Block → DefaultBlock × Option ApiError
  | [] => (DefaultBlock.zero, some ApiError.ErrNoStagedBlock)
  | block :: rest =>
    if block.GetHeight = height then
      match block with
      | Block.Default target => (target, none)
      | Block.Foreign _ _ => (DefaultBlock.zero, some ApiError.ErrFailBlockTypeCasting)
    else
      getStagedBlockByHeightLoop height rest

/-- The method `BlockPoolRepositoryImpl.GetStagedBlockByHeight`. -/
def BlockPoolRepositoryImpl.GetStagedBlockByHeight (r : BlockPoolRepositoryImpl)
    (height : Nat) : DefaultBlock × Option ApiError :=
  getStagedBlockByHeightLoop height r.Blocks

/-- The loop of `GetStagedBlockById` over the blocks still to visit. -/
def getStagedBlockByIdLoop (id : GoString) : List Block → DefaultBlock × Option ApiError
  | [] => (DefaultBlock.zero, some ApiError.ErrNoStagedBlock)
  | block :: rest =>
    if block.GetSeal.toStr = id then
      match block with
      | Block.Default defaultBlock => (defaultBlock, none)
      | Block.Foreign _ _ => (DefaultBlock.zero, some ApiError.ErrFailBlockTypeCasting)
    else
      getStagedBlockByIdLoop id rest

/-- The method `BlockPoolRepositoryImpl.GetStagedBlockById`. -/
def BlockPoolRepositoryImpl.GetStagedBlockById (r : BlockPoolRepositoryImpl)
    (id : GoString) : DefaultBlock × Option ApiError :=
  getStagedBlockByIdLoop id r.Blocks

/-- The function `stagedBlockWithSmallerHeight`. The method `DefaultBlock.IsEmpty`
it calls belongs to package `blockchain`, outside the sources, and is the
parameter `IsEmpty` here and in `GetFirstStagedBlock`. -/
def stagedBlockWithSmallerHeight (IsEmpty : DefaultBlock → Bool)
    (base comparator : DefaultBlock) : Bool :=
  comparator.State == BlockState.Staged &&
    (decide (base.Height > comparator.Height) || IsEmpty base)

/-- The loop of `GetFirstStagedBlock`: the candidate `target` and the blocks still
to visit. The result is `none` when an entry fails the type assertion, and the
last candidate otherwise. -/
def getFirstStagedBlockLoop (IsEmpty : DefaultBlock → Bool) :
    DefaultBlock → List Block → Option DefaultBlock
  | target, [] => some target
  | target, Block.Default defaultBlock :: rest =>
    if stagedBlockWithSmallerHeight IsEmpty target defaultBlock then
      getFirstStagedBlockLoop IsEmpty defaultBlock rest
    else
      getFirstStagedBlockLoop IsEmpty target rest
  | _, Block.Foreign _ _ :: _ => none

/-- The method `BlockPoolRepositoryImpl.GetFirstStagedBlock`. -/
def BlockPoolRepositoryImpl.GetFirstStagedBlock (IsEmpty : DefaultBlock → Bool)
    (r : BlockPoolRepositoryImpl) : DefaultBlock × Option ApiError :=
  if r.Blocks.length = 0 then
    (DefaultBlock.zero, some ApiError.ErrNoStagedBlock)
  else
    match getFirstStagedBlockLoop IsEmpty DefaultBlock.zero r.Blocks with
    | none => (DefaultBlock.zero, some ApiError.ErrFailBlockTypeCasting)
    | some target =>
      if IsEmpty target then
        (target, some ApiError.ErrNoStagedBlock)
      else
        (target, none)

/-- The loop of `RemoveById`: the index `i` of the next block and the blocks still
to visit; the result is the index of the first block whose seal is `id`. -/
def removeByIdLoop (id : GoString) : Nat → List Block → Option Nat
  | _, [] => none
  | i, b :: rest =>
    if b.GetSeal.toStr = id then some i else removeByIdLoop id (i + 1) rest

/-- The method `BlockPoolRepositoryImpl.RemoveById`: the pool after the call and the error.
At the index found, the pool becomes `append(r.Blocks[:i], r.Blocks[i+1:]...)`. -/
def BlockPoolRepositoryImpl.RemoveById (r : BlockPoolRepositoryImpl) (id : GoString) :
    BlockPoolRepositoryImpl × Option ApiError :=
  match removeByIdLoop id 0 r.Blocks with
  | some i => ({ r with Blocks := r.Blocks.take i ++ r.Blocks.drop (i + 1) }, none)
  | none => (r, some ApiError.ErrFailRemoveBlock)

/-- The pool whose entries are the given `DefaultBlock` values, in that order. -/
def poolOf (bs : List DefaultBlock) : BlockPoolRepositoryImpl :=
  { Blocks := bs.map Block.Default }

end ApiGateway

namespace ApiGateway

/-- The reads of the storage engine `yggdrasill.BlockStorageManager`, an external
library, that the repository of committed blocks calls. Each read takes the block
its argument `out` points to and gives that block after the call and the error of
the engine, of an arbitrary type `ε`. -/
structure BlockStorageManager (ε : Type) where
  GetLastBlock : DefaultBlock → DefaultBlock × Option ε
  GetBlockByHeight : DefaultBlock → Nat → DefaultBlock × Option ε

/-- The struct `CommitedBlockRepositoryImpl`, without its lock. -/
structure CommitedBlockRepositoryImpl (ε : Type) where
  BlockStorageManager : BlockStorageManager ε

/-- The method `CommitedBlockRepositoryImpl.GetLastBlock`. -/
def CommitedBlockRepositoryImpl.GetLastBlock {ε : Type} (cbr : CommitedBlockRepositoryImpl ε) :
    DefaultBlock × Option ApiError :=
  let r := cbr.BlockStorageManager.GetLastBlock DefaultBlock.zero
  match r.2 with
  | some _ => (DefaultBlock.zero, some ApiError.ErrGetCommitedBlock)
  | none => (r.1, none)

/-- The method `CommitedBlockRepositoryImpl.GetBlockByHeight`. -/
def CommitedBlockRepositoryImpl.GetBlockByHeight {ε : Type}
    (cbr : CommitedBlockRepositoryImpl ε) (height : Nat) : DefaultBlock × Option ApiError :=
  let r := cbr.BlockStorageManager.GetBlockByHeight DefaultBlock.zero height
  match r.2 with
  | some _ => (DefaultBlock.zero, some ApiError.ErrGetCommitedBlock)
  | none => (r.1, none)

/-- The struct `BlockQueryApi`; its two fields hold the implementations of this
file. -/
structure BlockQueryApi (ε : Type) where
  blockPoolRepository : BlockPoolRepositoryImpl
  commitedBlockRepository : CommitedBlockRepositoryImpl ε

/-- The method `BlockQueryApi.GetStagedBlockByHeight`, marked `TODO` in the
source: it returns `nil, nil`. The first component is the interface value
returned, `none` for nil. -/
def BlockQueryApi.GetStagedBlockByHeight {ε : Type} (_q : BlockQueryApi ε) (_height : Nat) :
    Option Block × Option ApiError :=
  (none, none)

/-- The method `BlockQueryApi.GetStagedBlockById`, marked `TODO` in the source: it
returns `nil, nil`. -/
def BlockQueryApi.GetStagedBlockById {ε : Type} (_q : BlockQueryApi ε) (_blockId : GoString) :
    Option Block × Option ApiError :=
  (none, none)

/-- The method `BlockQueryApi.GetLastCommitedBlock`. -/
def BlockQueryApi.GetLastCommitedBlock {ε : Type} (q : BlockQueryApi ε) :
    Option Block × Option ApiError :=
  let r := q.commitedBlockRepository.GetLastBlock
  (some (Block.Default r.1), r.2)

/-- The method `BlockQueryApi.GetCommitedBlockByHeight`. -/
def BlockQueryApi.GetCommitedBlockByHeight {ε : Type} (q : BlockQueryApi ε) (height : Nat) :
    Option Block × Option ApiError :=
  let r := q.commitedBlockRepository.GetBlockByHeight height
  (some (Block.Default r.1), r.2)

/-- A call that changes the pool: `AddCreatedBlock` or `RemoveById` with its
argument. -/
inductive PoolCall where
  | AddCreatedBlock (block : DefaultBlock)
  | RemoveById (id : GoString)
  deriving DecidableEq, Repr

/-- The pool after one call, whether the call returned an error or not. -/
def PoolCall.run (r : BlockPoolRepositoryImpl) : PoolCall → BlockPoolRepositoryImpl
  | PoolCall.AddCreatedBlock block => (r.AddCreatedBlock block).1
  | PoolCall.RemoveById id => (r.RemoveById id).1

/-- The pool after a sequence of calls, made in the order of the list. -/
def runCalls : BlockPoolRepositoryImpl → List PoolCall → BlockPoolRepositoryImpl
  | r, [] => r
  | r, c :: cs => runCalls (c.run r) cs

end ApiGateway

namespace Pbft

/-- The memory the calls on one `StateRepository` share: whether its lock is held,
and its field `state`. -/
structure Shared (σ : Type) where
  locked : Bool
  state : State σ
  deriving DecidableEq, Repr

/-- A call of `Save`, `Load` or `Remove` on the shared repository, at one of its
program points. `SaveCall` is before `repo.Lock()`, `SaveLocked` after it,
`SaveRead` after `id := repo.state.StateID.ID`, `SaveDeferred` at the return with
the deferred `repo.Unlock()` still to run. `LoadCall` is before the test
`repo.state.StateID.ID == ""` and `LoadTested` after it, before `repo.state` is
read for the return. `RemoveCall` is before the assignment of `Remove`. -/
inductive Thread (σ : Type) where
  | SaveCall (s : State σ)
  | SaveLocked (s : State σ)
  | SaveRead (s : State σ) (id : String)
  | SaveDeferred (err : Option PbftError)
  | SaveDone (err : Option PbftError)
  | LoadCall
  | LoadTested (empty : Bool)
  | LoadDone (st : State σ) (err : Option PbftError)
  | RemoveCall
  | RemoveDone
  deriving DecidableEq, Repr

/-- One step of a call on the shared memory: the statement at its program point.
The result is `none` when the call cannot step: `repo.Lock()` while the lock is
held, or a call that has returned. Only `Save` touches the lock. -/
def Thread.step {σ : Type} [Inhabited σ] (m : Shared σ) :
    Thread σ → Option (Shared σ × Thread σ)
  | Thread.SaveCall s =>
    if m.locked then none else some ({ m with locked := true }, Thread.SaveLocked s)
  | Thread.SaveLocked s => some (m, Thread.SaveRead s m.state.StateID.ID)
  | Thread.SaveRead s id =>
    if id = s.StateID.ID ∨ id = "" then
      some ({ m with state := s }, Thread.SaveDeferred none)
    else
      some (m, Thread.SaveDeferred (some PbftError.ErrInvalidSave))
  | Thread.SaveDeferred err => some ({ m with locked := false }, Thread.SaveDone err)
  | Thread.SaveDone _ => none
  | Thread.LoadCall => some (m, Thread.LoadTested (m.state.StateID.ID == ""))
  | Thread.LoadTested empty =>
    if empty then
      some (m, Thread.LoadDone m.state (some PbftError.ErrEmptyRepo))
    else
      some (m, Thread.LoadDone m.state none)
  | Thread.LoadDone _ _ => none
  | Thread.RemoveCall => some ({ m with state := State.zero }, Thread.RemoveDone)
  | Thread.RemoveDone => none

/-- Whether a call is between its `repo.Lock()` and its `repo.Unlock()`. -/
def Thread.holdsLock {σ : Type} : Thread σ → Bool
  | Thread.SaveLocked _ => true
  | Thread.SaveRead _ _ => true
  | Thread.SaveDeferred _ => true
  | _ => false

/-- A run of concurrent calls: the schedule names, step after step, the call that
takes the next step. The result is `none` when a scheduled call cannot step. -/
def runSchedule {σ : Type} [Inhabited σ] :
    Shared σ × List (Thread σ) → List Nat → Option (Shared σ × List (Thread σ))
  | c, [] => some c
  | (m, ts), i :: rest =>
    match ts[i]? with
    | none => none
    | some t =>
      match t.step m with
      | none => none
      | some (m2, t2) => runSchedule (m2, ts.set i t2) rest

end Pbft

namespace ConsensusFactory

/-- Modelled from the spec: `MemberId`, an opaque string that identifies a
representative; its declaration is not among the sources. -/
abbrev MemberId := String

/-- Modelled from the spec: `Representative`, a voting participant with its id. -/
structure Representative where
  ID : MemberId
  deriving DecidableEq, Repr

/-- Modelled from the spec: `NewRepresentative`, called by the test. -/
def NewRepresentative (id : MemberId) : Representative :=
  { ID := id }

/-- Modelled from the spec: `ProposedBlock`, a seal and a body of bytes. -/
structure ProposedBlock where
  Seal : List Nat
  Body : List Nat
  deriving DecidableEq, Repr

/-- Modelled from the spec: `ConsensusId`, the identifier of one round. -/
structure ConsensusId where
  Id : String
  deriving DecidableEq, Repr

/-- Modelled from the spec: the states of a round. -/
inductive RoundState where
  | IDLE_STATE
  | PRE_PREPARE_STATE
  | PREPARE_STATE
  | COMMIT_STATE
  | FINALIZED_STATE
  | FAILED_STATE
  deriving DecidableEq, Repr

/-- Modelled from the spec: `Consensus`, the round. -/
structure Consensus where
  ConsensusID : ConsensusId
  Representatives : List Representative
  Block : ProposedBlock
  CurrentState : RoundState
  deriving DecidableEq, Repr

/-- Modelled from the spec: `PrePrepareMsg`, with the field names of the test. -/
structure PrePrepareMsg where
  ConsensusId : ConsensusId
  SenderId : String
  Representative : List Representative
  ProposedBlock : ProposedBlock
  deriving DecidableEq, Repr

/-- Modelled from the spec: the construction errors. -/
inductive ConsensusError where
  | EmptyRepresentativeSet
  deriving DecidableEq, Repr

/-- Modelled from the spec: `CreateConsensus`, the `Construct` of the spec, which
is missing from the sources (only its test is there). It fails with
`EmptyRepresentativeSet` when fewer than 2 representatives are supplied; on
success the round is `IDLE`, holds one representative per member and the proposed
block, and its id is freshly minted, here the argument `freshId`. -/
def CreateConsensus (freshId : ConsensusId) (p : List MemberId) (b : ProposedBlock) :
    Except ConsensusError Consensus :=
  if p.length < 2 then
    Except.error ConsensusError.EmptyRepresentativeSet
  else
    Except.ok
      { ConsensusID := freshId, Representatives := p.map NewRepresentative, Block := b,
        CurrentState := RoundState.IDLE_STATE }

/-- Modelled from the spec: `ConstructConsensus`, the `ConstructFromPrePrepare` of
the spec, which is missing from the sources (only its test is there). It
validates that the representative list is not empty, binds the id of the round
from the message, and the round is `IDLE` initially. -/
def ConstructConsensus (msg : PrePrepareMsg) : Except ConsensusError Consensus :=
  if msg.Representative.length = 0 then
    Except.error ConsensusError.EmptyRepresentativeSet
  else
    Except.ok
      { ConsensusID := msg.ConsensusId, Representatives := msg.Representative,
        Block := msg.ProposedBlock, CurrentState := RoundState.IDLE_STATE }

end ConsensusFactory

namespace ApiGateway

/-- The error value declared in `connection_query_api.go`. -/
inductive ConnectionError where
  | ErrConnectionExists
  deriving DecidableEq, Repr

/-- The struct `Connection`. -/
structure Connection where
  ConnectionID : String
  Address : String
  deriving DecidableEq, Repr

/-- The Go zero value `Connection{}`. -/
def Connection.zero : Connection :=
  { ConnectionID := "", Address := "" }

/-- The struct `ConnectionRepository`, without its lock. The Go map
`ConnectionTable` is the function from a key to the entry stored under it, `none`
when the map has no entry under the key. -/
structure ConnectionRepository where
  ConnectionTable : String → Option Connection

/-- The function `NewConnectionRepository`. -/
def NewConnectionRepository : ConnectionRepository :=
  { ConnectionTable := fun _ => none }

/-- The method `ConnectionRepository.Save`: the repository after the call and the
error. -/
def ConnectionRepository.Save (cr : ConnectionRepository) (conn : Connection) :
    ConnectionRepository × Option ConnectionError :=
  match cr.ConnectionTable conn.ConnectionID with
  | some _ => (cr, some ConnectionError.ErrConnectionExists)
  | none =>
    ({ cr with ConnectionTable :=
        fun k => if k = conn.ConnectionID then some conn else cr.ConnectionTable k }, none)

/-- The method `ConnectionRepository.Remove`: the repository after the call and
the error, which is always nil. -/
def ConnectionRepository.Remove (cr : ConnectionRepository) (connID : String) :
    ConnectionRepository × Option ConnectionError :=
  ({ cr with ConnectionTable := fun k => if k = connID then none else cr.ConnectionTable k },
   none)

/-- An order in which a `range` over the table may visit its keys: every key of
the table, once. Go leaves the order of a `range` over a map open, so the scans
below take it as their argument `keys`. -/
def ConnectionRepository.RangeOrder (cr : ConnectionRepository) (keys : List String) : Prop :=
  keys.Nodup ∧ ∀ k, k ∈ keys ↔ cr.ConnectionTable k ≠ none

/-- The loop of `FindByID` over the keys still to visit: it tests the field
`ConnectionID` of each entry, not the key the entry is stored under. -/
def findByIDLoop (table : String → Option Connection) (connID : String) :
    List String → Connection × Option ConnectionError
  | [] => (Connection.zero, none)
  | k :: rest =>
    match table k with
    | some conn =>
      if connID = conn.ConnectionID then (conn, none) else findByIDLoop table connID rest
    | none => findByIDLoop table connID rest

/-- The method `ConnectionRepository.FindByID`, for the order `keys` of its
`range`. -/
def ConnectionRepository.FindByID (cr : ConnectionRepository) (keys : List String)
    (connID : String) : Connection × Option ConnectionError :=
  findByIDLoop cr.ConnectionTable connID keys

/-- The tables in which every entry is stored under the `ConnectionID` of its
connection. -/
def ConnectionRepository.KeyedByID (cr : ConnectionRepository) : Prop :=
  ∀ k v, cr.ConnectionTable k = some v → v.ConnectionID = k

/-- A call that changes the connection table: `Save` or `Remove` with its
argument. -/
inductive ConnectionCall where
  | Save (conn : Connection)
  | Remove (connID : String)
  deriving DecidableEq, Repr

/-- The repository after one call, whether the call returned an error or not. -/
def ConnectionCall.run (cr : ConnectionRepository) : ConnectionCall → ConnectionRepository
  | ConnectionCall.Save conn => (cr.Save conn).1
  | ConnectionCall.Remove connID => (cr.Remove connID).1

/-- The repository after a sequence of calls, made in the order of the list. The
map is written by `NewConnectionRepository`, `Save` and `Remove` only, so the
tables the code builds are those of
`runConnectionCalls NewConnectionRepository calls`. -/
def runConnectionCalls : ConnectionRepository → List ConnectionCall → ConnectionRepository
  | cr, [] => cr
  | cr, c :: cs => runConnectionCalls (c.run cr) cs

end ApiGateway

/-! ## Theorems -/

namespace Pbft

/-- C1: `Save s` returns nil exactly when the stored id is empty or equals the id
of `s`; in every other case it returns `ErrInvalidSave`; and when it returns nil
the stored state is `s`. -/
theorem save_nil_iff {σ : Type} (repo : StateRepository σ) (s : State σ) :
    ((repo.Save s).2 = none ↔
        (repo.state.StateID.ID = "" ∨ repo.state.StateID.ID = s.StateID.ID)) ∧
    (¬ (repo.state.StateID.ID = "" ∨ repo.state.StateID.ID = s.StateID.ID) →
        (repo.Save s).2 = some PbftError.ErrInvalidSave) ∧
    ((repo.Save s).2 = none → (repo.Save s).1.state = s) := by
  unfold StateRepository.Save
  by_cases h : repo.state.StateID.ID = s.StateID.ID ∨ repo.state.StateID.ID = ""
  · rw [if_pos h]
    exact ⟨⟨fun _ => h.symm, fun _ => rfl⟩, fun hn => absurd h.symm hn, fun _ => rfl⟩
  · rw [if_neg h]
    exact ⟨⟨fun hc => (by cases hc), fun hc => absurd hc.symm h⟩, fun _ => rfl,
      fun hc => (by cases hc)⟩

/-- A `Save` that returns nil has stored its argument. -/
theorem save_nil_stored {σ : Type} (repo : StateRepository σ) (s : State σ)
    (hok : (repo.Save s).2 = none) : (repo.Save s).1.state = s := by
  unfold StateRepository.Save at hok ⊢
  by_cases h : repo.state.StateID.ID = s.StateID.ID ∨ repo.state.StateID.ID = ""
  · rw [if_pos h]
  · rw [if_neg h] at hok
    cases hok

/-- One `Save` on a repository whose stored id `i` is not empty: the stored id is
still `i`, and a state with another id is refused. -/
theorem save_of_active {σ : Type} (repo : StateRepository σ) (s : State σ) (i : String)
    (hi : i ≠ "") (hrepo : repo.state.StateID.ID = i) :
    (repo.Save s).1.state.StateID.ID = i ∧
    (s.StateID.ID ≠ i → (repo.Save s).2 = some PbftError.ErrInvalidSave) := by
  unfold StateRepository.Save
  by_cases h : repo.state.StateID.ID = s.StateID.ID ∨ repo.state.StateID.ID = ""
  · rw [if_pos h]
    rcases h with h | h
    · exact ⟨by rw [← hrepo, h], fun hne => absurd (h.symm.trans hrepo) hne⟩
    · exact absurd (hrepo.symm.trans h) hi
  · rw [if_neg h]
    exact ⟨hrepo, fun _ => rfl⟩

/-- C2: on a repository whose stored id `i` is not empty, after any run of `Save`
calls the stored id is still `i`, there is one result per call, and every call
whose state has an id other than `i` returned `ErrInvalidSave`. -/
theorem saveAll_single_active_round {σ : Type} (repo : StateRepository σ) (i : String)
    (ss : List (State σ)) (hi : i ≠ "") (hrepo : repo.state.StateID.ID = i) :
    (repo.SaveAll ss).1.state.StateID.ID = i ∧
    (repo.SaveAll ss).2.length = ss.length ∧
    ∀ (k : Nat) (s : State σ), ss[k]? = some s → s.StateID.ID ≠ i →
      (repo.SaveAll ss).2[k]? = some (some PbftError.ErrInvalidSave) := by
  induction ss generalizing repo with
  | nil =>
    refine ⟨hrepo, rfl, ?_⟩
    intro k s hk
    simp at hk
  | cons a rest ih =>
    have hstep := save_of_active repo a i hi hrepo
    have hrest := ih (repo.Save a).1 hstep.1
    refine ⟨hrest.1, ?_, ?_⟩
    · simp only [StateRepository.SaveAll, List.length_cons, hrest.2.1]
    · intro k s hk hne
      cases k with
      | zero =>
        simp only [List.getElem?_cons_zero, Option.some.injEq] at hk
        subst hk
        simp only [StateRepository.SaveAll, List.getElem?_cons_zero, hstep.2 hne]
      | succ n =>
        simp only [List.getElem?_cons_succ] at hk
        simp only [StateRepository.SaveAll, List.getElem?_cons_succ]
        exact hrest.2.2 n s hk hne

/-- Witness of C2: the round "r1" is stored and three saves are tried, the second
one by the owning round. -/
theorem saveAll_single_active_round_witness :
    ("r1" : String) ≠ "" ∧
    (StateRepository.SaveAll (σ := Nat) { state := { StateID := { ID := "r1" }, Round := 0 } }
      [{ StateID := { ID := "r2" }, Round := 1 }, { StateID := { ID := "r1" }, Round := 2 },
       { StateID := { ID := "" }, Round := 3 }]).1.state.StateID.ID = "r1" :=
  ⟨by decide,
   (saveAll_single_active_round (σ := Nat)
      { state := { StateID := { ID := "r1" }, Round := 0 } } "r1"
      [{ StateID := { ID := "r2" }, Round := 1 }, { StateID := { ID := "r1" }, Round := 2 },
       { StateID := { ID := "" }, Round := 3 }] (by decide) rfl).1⟩

/-- C3 as stated fails when the first state has the empty id: the ids of the two
states differ, and yet the second save is accepted and replaces the stored state. -/
theorem save_after_empty_id_accepted :
    (({ StateID := { ID := "r2" }, Round := 2 } : State Nat).StateID.ID ≠
      ({ StateID := { ID := "" }, Round := 1 } : State Nat).StateID.ID) ∧
    (StateRepository.Save (σ := Nat)
        ((NewStateRepository (σ := Nat)).Save { StateID := { ID := "" }, Round := 1 }).1
        { StateID := { ID := "r2" }, Round := 2 }).2 ≠ some PbftError.ErrInvalidSave ∧
    (StateRepository.Save (σ := Nat)
        ((NewStateRepository (σ := Nat)).Save { StateID := { ID := "" }, Round := 1 }).1
        { StateID := { ID := "r2" }, Round := 2 })
      = ({ state := { StateID := { ID := "r2" }, Round := 2 } }, none) := by
  decide

/-- C3, amended: from a fresh repository and after `Save s1` where the id of `s1`
is not empty, `Save s2` returns `ErrInvalidSave` and keeps `s1` when the ids
differ, and returns nil and stores `s2` when the ids are equal. -/
theorem save_after_first_save {σ : Type} [Inhabited σ] (s1 s2 : State σ)
    (h1 : s1.StateID.ID ≠ "") :
    (s2.StateID.ID ≠ s1.StateID.ID →
      (((NewStateRepository (σ := σ)).Save s1).1.Save s2).2 = some PbftError.ErrInvalidSave ∧
      (((NewStateRepository (σ := σ)).Save s1).1.Save s2).1.state = s1) ∧
    (s2.StateID.ID = s1.StateID.ID →
      (((NewStateRepository (σ := σ)).Save s1).1.Save s2).2 = none ∧
      (((NewStateRepository (σ := σ)).Save s1).1.Save s2).1.state = s2) := by
  have hfresh : ((NewStateRepository (σ := σ)).Save s1).1 = { state := s1 } := by
    simp [StateRepository.Save, NewStateRepository, State.zero]
  rw [hfresh]
  unfold StateRepository.Save
  constructor
  · intro hne
    have hc : ¬ (s1.StateID.ID = s2.StateID.ID ∨ s1.StateID.ID = "") := by
      rintro (h | h)
      · exact hne h.symm
      · exact h1 h
    simp only [hc, if_false, and_self]
  · intro heq
    have hc : s1.StateID.ID = s2.StateID.ID ∨ s1.StateID.ID = "" := Or.inl heq.symm
    simp only [hc, if_true, and_self]

/-- Witness of C3, amended: the first round is "r1". -/
theorem save_after_first_save_witness :
    ("r1" : String) ≠ "" ∧
    ((((NewStateRepository (σ := Nat)).Save { StateID := { ID := "r1" }, Round := 1 }).1.Save
        { StateID := { ID := "r2" }, Round := 2 }).2 = some PbftError.ErrInvalidSave) :=
  ⟨by decide,
   ((save_after_first_save (σ := Nat) { StateID := { ID := "r1" }, Round := 1 }
      { StateID := { ID := "r2" }, Round := 2 } (by decide)).1 (by decide)).1⟩

/-- C4: a `Save` that returns `ErrInvalidSave` leaves the repository as it was. -/
theorem save_error_unchanged {σ : Type} (repo : StateRepository σ) (s : State σ)
    (herr : (repo.Save s).2 = some PbftError.ErrInvalidSave) :
    (repo.Save s).1 = repo := by
  unfold StateRepository.Save at herr ⊢
  by_cases h : repo.state.StateID.ID = s.StateID.ID ∨ repo.state.StateID.ID = ""
  · rw [if_pos h] at herr
    cases herr
  · rw [if_neg h]

/-- Witness of C4: the round "r1" is stored and "r2" tries to save. -/
theorem save_error_unchanged_witness :
    (StateRepository.Save (σ := Nat) { state := { StateID := { ID := "r1" }, Round := 0 } }
        { StateID := { ID := "r2" }, Round := 1 }).2 = some PbftError.ErrInvalidSave ∧
    (StateRepository.Save (σ := Nat) { state := { StateID := { ID := "r1" }, Round := 0 } }
        { StateID := { ID := "r2" }, Round := 1 }).1
      = { state := { StateID := { ID := "r1" }, Round := 0 } } :=
  ⟨by decide,
   save_error_unchanged (σ := Nat) { state := { StateID := { ID := "r1" }, Round := 0 } }
      { StateID := { ID := "r2" }, Round := 1 } (by decide)⟩

/-- C5: `Load` returns `ErrEmptyRepo` exactly when the stored id is empty and
otherwise the stored state with a nil error; it leaves the repository unchanged;
and after a successful `Save s` with a non-empty id it returns `s` with a nil
error. -/
theorem load_spec {σ : Type} (repo : StateRepository σ) :
    ((repo.Load).2.2 = some PbftError.ErrEmptyRepo ↔ repo.state.StateID.ID = "") ∧
    (repo.state.StateID.ID ≠ "" → (repo.Load).2 = (repo.state, none)) ∧
    (repo.Load).1 = repo ∧
    (∀ s : State σ, (repo.Save s).2 = none → s.StateID.ID ≠ "" →
      ((repo.Save s).1.Load).2 = (s, none) ∧ ((repo.Save s).1.Load).1 = (repo.Save s).1) := by
  have hload : ∀ r : StateRepository σ,
      ((r.Load).2.2 = some PbftError.ErrEmptyRepo ↔ r.state.StateID.ID = "") ∧
      (r.state.StateID.ID ≠ "" → (r.Load).2 = (r.state, none)) ∧ (r.Load).1 = r := by
    intro r
    unfold StateRepository.Load
    by_cases h : r.state.StateID.ID = ""
    · rw [if_pos h]
      exact ⟨⟨fun _ => h, fun _ => rfl⟩, fun hne => absurd h hne, rfl⟩
    · rw [if_neg h]
      exact ⟨⟨fun hc => (by cases hc), fun hc => absurd hc h⟩, fun _ => rfl, rfl⟩
  refine ⟨(hload repo).1, (hload repo).2.1, (hload repo).2.2, ?_⟩
  intro s hok hne
  have hst : (repo.Save s).1.state = s := (save_nil_stored repo s hok)
  have h2 := (hload (repo.Save s).1).2.1 (by rw [hst]; exact hne)
  rw [hst] at h2
  exact ⟨h2, (hload (repo.Save s).1).2.2⟩

/-- C6: after `Remove` the repository is a fresh one, `Load` returns
`ErrEmptyRepo` and every `Save` returns nil and stores its state. -/
theorem remove_resets {σ : Type} [Inhabited σ] (repo : StateRepository σ) :
    repo.Remove = NewStateRepository ∧
    (repo.Remove.Load).2.2 = some PbftError.ErrEmptyRepo ∧
    (∀ s : State σ, (repo.Remove.Save s).2 = none ∧ (repo.Remove.Save s).1.state = s) := by
  refine ⟨rfl, ?_, ?_⟩
  · simp [StateRepository.Load, StateRepository.Remove, State.zero]
  · intro s
    simp [StateRepository.Save, StateRepository.Remove, State.zero]

end Pbft

namespace ApiGateway

/-- C7: `AddCreatedBlock b` returns nil exactly when the state of `b` is `Created`
or `Staged` and `ErrInvalidStateBlock` otherwise, so for every `Committed` block;
on success the pool is the old one with `b` appended at the end, on failure the
pool is unchanged. -/
theorem addCreatedBlock_spec (r : BlockPoolRepositoryImpl) (b : DefaultBlock) :
    ((r.AddCreatedBlock b).2 = none ↔
        (b.State = BlockState.Created ∨ b.State = BlockState.Staged)) ∧
    (¬ (b.State = BlockState.Created ∨ b.State = BlockState.Staged) →
        (r.AddCreatedBlock b).2 = some ApiError.ErrInvalidStateBlock) ∧
    (b.State = BlockState.Committed →
        (r.AddCreatedBlock b).2 = some ApiError.ErrInvalidStateBlock) ∧
    ((r.AddCreatedBlock b).2 = none →
        (r.AddCreatedBlock b).1.Blocks = r.Blocks ++ [Block.Default b]) ∧
    ((r.AddCreatedBlock b).2 ≠ none → (r.AddCreatedBlock b).1 = r) := by
  unfold BlockPoolRepositoryImpl.AddCreatedBlock validStateBlock
  cases hs : b.State <;> simp

/-- The loop of `RemoveById` finds no index exactly when no block still to visit
has the seal `id`. -/
theorem removeByIdLoop_none_iff (id : GoString) (blocks : List Block) (i : Nat) :
    removeByIdLoop id i blocks = none ↔ ∀ b ∈ blocks, b.GetSeal.toStr ≠ id := by
  induction blocks generalizing i with
  | nil => simp [removeByIdLoop]
  | cons b rest ih =>
    unfold removeByIdLoop
    by_cases h : b.GetSeal.toStr = id
    · simp [h]
    · simp [h, ih]

/-- C10: when no pooled block has a seal equal to `id`, `RemoveById id` returns
`ErrFailRemoveBlock` and leaves the pool unchanged; when some pooled block has a
seal equal to `id`, it returns nil. -/
theorem removeById_error_spec (r : BlockPoolRepositoryImpl) (id : GoString) :
    ((∀ b ∈ r.Blocks, b.GetSeal.toStr ≠ id) →
        r.RemoveById id = (r, some ApiError.ErrFailRemoveBlock)) ∧
    ((∃ b ∈ r.Blocks, b.GetSeal.toStr = id) → (r.RemoveById id).2 = none) := by
  unfold BlockPoolRepositoryImpl.RemoveById
  constructor
  · intro h
    rw [(removeByIdLoop_none_iff id r.Blocks 0).2 h]
  · intro h
    cases hl : removeByIdLoop id 0 r.Blocks with
    | some i => rfl
    | none =>
      obtain ⟨b, hb, hid⟩ := h
      exact absurd hid ((removeByIdLoop_none_iff id r.Blocks 0).1 hl b hb)

/-- The test of `stagedBlockWithSmallerHeight`, read as a proposition. -/
theorem stagedBlockWithSmallerHeight_iff (IsEmpty : DefaultBlock → Bool)
    (base comparator : DefaultBlock) :
    stagedBlockWithSmallerHeight IsEmpty base comparator = true ↔
      comparator.State = BlockState.Staged ∧
        (comparator.Height < base.Height ∨ IsEmpty base = true) := by
  simp [stagedBlockWithSmallerHeight]

/-- The loop of `GetFirstStagedBlock` started on a candidate that is not empty,
over entries that are all `DefaultBlock` values: it ends on a candidate that is
not empty, that is the first candidate or a `Staged` block visited, and whose
height is at most the height of the first candidate and of every `Staged` block
visited. -/
theorem getFirstStagedBlockLoop_of_candidate (IsEmpty : DefaultBlock → Bool)
    (bs : List DefaultBlock) (target : DefaultBlock) (ht : IsEmpty target = false)
    (hne : ∀ b ∈ bs, b.State = BlockState.Staged → IsEmpty b = false) :
    ∃ t, getFirstStagedBlockLoop IsEmpty target (bs.map Block.Default) = some t ∧
      IsEmpty t = false ∧
      (t = target ∨ (t ∈ bs ∧ t.State = BlockState.Staged)) ∧
      t.Height ≤ target.Height ∧
      ∀ b ∈ bs, b.State = BlockState.Staged → t.Height ≤ b.Height := by
  induction bs generalizing target with
  | nil =>
    exact ⟨target, rfl, ht, Or.inl rfl, le_refl _, fun b hb => absurd hb (List.not_mem_nil b)⟩
  | cons d rest ih =>
    have hrest : ∀ b ∈ rest, b.State = BlockState.Staged → IsEmpty b = false :=
      fun b hb => hne b (List.mem_cons_of_mem d hb)
    simp only [List.map_cons, getFirstStagedBlockLoop]
    by_cases hs : stagedBlockWithSmallerHeight IsEmpty target d = true
    · rw [if_pos hs]
      have hs2 := (stagedBlockWithSmallerHeight_iff IsEmpty target d).1 hs
      have hlt : d.Height < target.Height := by
        rcases hs2.2 with h | h
        · exact h
        · rw [ht] at h
          cases h
      obtain ⟨t, hrun, hte, hmem, hle, hmin⟩ :=
        ih d (hne d (List.mem_cons_self d rest) hs2.1) hrest
      refine ⟨t, hrun, hte, Or.inr ?_, by omega, ?_⟩
      · rcases hmem with h | h
        · exact ⟨by rw [h]; exact List.mem_cons_self d rest, by rw [h]; exact hs2.1⟩
        · exact ⟨List.mem_cons_of_mem d h.1, h.2⟩
      · intro b hb hbs
        rcases List.mem_cons.1 hb with h | h
        · rw [h]
          exact hle
        · exact hmin b h hbs
    · rw [if_neg hs]
      obtain ⟨t, hrun, hte, hmem, hle, hmin⟩ := ih target ht hrest
      refine ⟨t, hrun, hte, ?_, hle, ?_⟩
      · rcases hmem with h | h
        · exact Or.inl h
        · exact Or.inr ⟨List.mem_cons_of_mem d h.1, h.2⟩
      · intro b hb hbs
        rcases List.mem_cons.1 hb with h | h
        · subst h
          have hnlt : ¬ b.Height < target.Height := fun hlt =>
            hs ((stagedBlockWithSmallerHeight_iff IsEmpty target b).2 ⟨hbs, Or.inl hlt⟩)
          omega
        · exact hmin b h hbs

/-- The loop of `GetFirstStagedBlock` started on an empty candidate, over entries
that are all `DefaultBlock` values: when no block visited is `Staged` it ends on
the first candidate, and otherwise on a `Staged` block visited that is not empty
and whose height is at most the height of every `Staged` block visited. -/
theorem getFirstStagedBlockLoop_of_empty (IsEmpty : DefaultBlock → Bool)
    (bs : List DefaultBlock) (target : DefaultBlock) (ht : IsEmpty target = true)
    (hne : ∀ b ∈ bs, b.State = BlockState.Staged → IsEmpty b = false) :
    ∃ t, getFirstStagedBlockLoop IsEmpty target (bs.map Block.Default) = some t ∧
      (((∀ b ∈ bs, b.State ≠ BlockState.Staged) ∧ t = target) ∨
       (t ∈ bs ∧ t.State = BlockState.Staged ∧ IsEmpty t = false ∧
        ∀ b ∈ bs, b.State = BlockState.Staged → t.Height ≤ b.Height)) := by
  induction bs with
  | nil =>
    exact ⟨target, rfl, Or.inl ⟨fun b hb => absurd hb (List.not_mem_nil b), rfl⟩⟩
  | cons d rest ih =>
    have hrest : ∀ b ∈ rest, b.State = BlockState.Staged → IsEmpty b = false :=
      fun b hb => hne b (List.mem_cons_of_mem d hb)
    simp only [List.map_cons, getFirstStagedBlockLoop]
    by_cases hd : d.State = BlockState.Staged
    · have hs : stagedBlockWithSmallerHeight IsEmpty target d = true :=
        (stagedBlockWithSmallerHeight_iff IsEmpty target d).2 ⟨hd, Or.inr ht⟩
      rw [if_pos hs]
      obtain ⟨t, hrun, hte, hmem, hle, hmin⟩ :=
        getFirstStagedBlockLoop_of_candidate IsEmpty rest d
          (hne d (List.mem_cons_self d rest) hd) hrest
      refine ⟨t, hrun, Or.inr ⟨?_, ?_, hte, ?_⟩⟩
      · rcases hmem with h | h
        · rw [h]
          exact List.mem_cons_self d rest
        · exact List.mem_cons_of_mem d h.1
      · rcases hmem with h | h
        · rw [h]
          exact hd
        · exact h.2
      · intro b hb hbs
        rcases List.mem_cons.1 hb with h | h
        · rw [h]
          exact hle
        · exact hmin b h hbs
    · have hs : ¬ stagedBlockWithSmallerHeight IsEmpty target d = true := fun h =>
        hd ((stagedBlockWithSmallerHeight_iff IsEmpty target d).1 h).1
      rw [if_neg hs]
      obtain ⟨t, hrun, hcase⟩ := ih hrest
      refine ⟨t, hrun, ?_⟩
      rcases hcase with ⟨hno, heq⟩ | ⟨hmem, hst, hte, hmin⟩
      · refine Or.inl ⟨?_, heq⟩
        intro b hb
        rcases List.mem_cons.1 hb with h | h
        · rw [h]
          exact hd
        · exact hno b h
      · refine Or.inr ⟨List.mem_cons_of_mem d hmem, hst, hte, ?_⟩
        intro b hb hbs
        rcases List.mem_cons.1 hb with h | h
        · rw [h] at hbs
          exact absurd hbs hd
        · exact hmin b h hbs

/-- The result of `GetFirstStagedBlock` on a pool of `DefaultBlock` entries, when the zero block
is empty and no pooled `Staged` block is: either no pooled block is `Staged` and
the error is `ErrNoStagedBlock`, or the error is nil and the block returned is a
pooled `Staged` block of least height among the pooled `Staged` blocks. -/
theorem getFirstStagedBlock_cases (IsEmpty : DefaultBlock → Bool) (bs : List DefaultBlock)
    (hz : IsEmpty DefaultBlock.zero = true)
    (hne : ∀ b ∈ bs, b.State = BlockState.Staged → IsEmpty b = false) :
    ((∀ b ∈ bs, b.State ≠ BlockState.Staged) ∧
      ((poolOf bs).GetFirstStagedBlock IsEmpty).2 = some ApiError.ErrNoStagedBlock) ∨
    (((poolOf bs).GetFirstStagedBlock IsEmpty).2 = none ∧
      ((poolOf bs).GetFirstStagedBlock IsEmpty).1 ∈ bs ∧
      ((poolOf bs).GetFirstStagedBlock IsEmpty).1.State = BlockState.Staged ∧
      ∀ b ∈ bs, b.State = BlockState.Staged →
        ((poolOf bs).GetFirstStagedBlock IsEmpty).1.Height ≤ b.Height) := by
  unfold BlockPoolRepositoryImpl.GetFirstStagedBlock poolOf
  by_cases hlen : (bs.map Block.Default).length = 0
  · rw [if_pos hlen]
    have hnil : bs = [] := by
      cases bs with
      | nil => rfl
      | cons d rest => simp at hlen
    exact Or.inl ⟨fun b hb => by rw [hnil] at hb; exact absurd hb (List.not_mem_nil b), rfl⟩
  · rw [if_neg hlen]
    obtain ⟨t, hrun, hcase⟩ := getFirstStagedBlockLoop_of_empty IsEmpty bs DefaultBlock.zero hz hne
    simp only [hrun]
    rcases hcase with ⟨hno, heq⟩ | ⟨hmem, hst, hte, hmin⟩
    · have hte : IsEmpty t = true := by rw [heq]; exact hz
      rw [if_pos hte]
      exact Or.inl ⟨hno, rfl⟩
    · simp only [hte]
      exact Or.inr ⟨rfl, hmem, hst, hmin⟩

/-- C8: with `IsEmpty` the test for no candidate yet, true of the zero block and
false of every `Staged` block, on every pool of `DefaultBlock` entries that holds
a `Staged` block `GetFirstStagedBlock` returns with a nil error a pooled block
that is `Staged` and whose height is at most the height of every pooled `Staged`
block. -/
theorem getFirstStagedBlock_least (IsEmpty : DefaultBlock → Bool) (bs : List DefaultBlock)
    (hz : IsEmpty DefaultBlock.zero = true)
    (hstaged : ∀ b : DefaultBlock, b.State = BlockState.Staged → IsEmpty b = false)
    (hst : ∃ b ∈ bs, b.State = BlockState.Staged) :
    ((poolOf bs).GetFirstStagedBlock IsEmpty).2 = none ∧
    ((poolOf bs).GetFirstStagedBlock IsEmpty).1 ∈ bs ∧
    ((poolOf bs).GetFirstStagedBlock IsEmpty).1.State = BlockState.Staged ∧
    ∀ b ∈ bs, b.State = BlockState.Staged →
      ((poolOf bs).GetFirstStagedBlock IsEmpty).1.Height ≤ b.Height := by
  rcases getFirstStagedBlock_cases IsEmpty bs hz (fun b _ hs => hstaged b hs) with
    ⟨hno, _⟩ | h
  · obtain ⟨b, hb, hbs⟩ := hst
    exact absurd hbs (hno b hb)
  · exact h

/-- Witness of C8: the pool of the spec, with heights 5 and 2 `Staged` and height
8 `Created`, and the test that holds of the zero block only; the block of height
2 is returned. -/
theorem getFirstStagedBlock_least_witness :
    decide (DefaultBlock.zero = DefaultBlock.zero) = true ∧
    (∀ b : DefaultBlock, b.State = BlockState.Staged →
      decide (b = DefaultBlock.zero) = false) ∧
    ((poolOf [{ Seal := some [5], PrevSeal := none, Height := 5, Body := [],
                State := BlockState.Staged },
              { Seal := some [2], PrevSeal := none, Height := 2, Body := [],
                State := BlockState.Staged },
              { Seal := some [8], PrevSeal := none, Height := 8, Body := [],
                State := BlockState.Created }]).GetFirstStagedBlock
        (fun b => decide (b = DefaultBlock.zero))
      = ({ Seal := some [2], PrevSeal := none, Height := 2, Body := [],
           State := BlockState.Staged }, none)) ∧
    ((poolOf [{ Seal := some [5], PrevSeal := none, Height := 5, Body := [],
                State := BlockState.Staged },
              { Seal := some [2], PrevSeal := none, Height := 2, Body := [],
                State := BlockState.Staged },
              { Seal := some [8], PrevSeal := none, Height := 8, Body := [],
                State := BlockState.Created }]).GetFirstStagedBlock
        (fun b => decide (b = DefaultBlock.zero))).1.State
      = BlockState.Staged :=
  ⟨by decide,
   fun b hs => decide_eq_false (fun h => absurd (h ▸ hs) (by decide)),
   by decide,
   (getFirstStagedBlock_least (fun b => decide (b = DefaultBlock.zero))
      [{ Seal := some [5], PrevSeal := none, Height := 5, Body := [],
                State := BlockState.Staged },
              { Seal := some [2], PrevSeal := none, Height := 2, Body := [],
                State := BlockState.Staged },
              { Seal := some [8], PrevSeal := none, Height := 8, Body := [],
                State := BlockState.Created }]
      (by decide)
      (fun b hs => decide_eq_false (fun h => absurd (h ▸ hs) (by decide)))
      (by decide)).2.2.1⟩

/-- C9: with `IsEmpty` the test for no candidate yet, true of the zero block and
false of every `Staged` block, on every pool of `DefaultBlock` entries
`GetFirstStagedBlock` returns `ErrNoStagedBlock` exactly when no pooled block is
`Staged`; so it does on the empty pool and on every pool of `Created` blocks,
whatever their heights. -/
theorem getFirstStagedBlock_error_iff (IsEmpty : DefaultBlock → Bool)
    (bs : List DefaultBlock) (hz : IsEmpty DefaultBlock.zero = true)
    (hstaged : ∀ b : DefaultBlock, b.State = BlockState.Staged → IsEmpty b = false) :
    (((poolOf bs).GetFirstStagedBlock IsEmpty).2 = some ApiError.ErrNoStagedBlock ↔
      ∀ b ∈ bs, b.State ≠ BlockState.Staged) ∧
    ((poolOf []).GetFirstStagedBlock IsEmpty).2 = some ApiError.ErrNoStagedBlock ∧
    ((∀ b ∈ bs, b.State = BlockState.Created) →
      ((poolOf bs).GetFirstStagedBlock IsEmpty).2 = some ApiError.ErrNoStagedBlock) := by
  have hdir : (∀ b ∈ bs, b.State ≠ BlockState.Staged) →
      ((poolOf bs).GetFirstStagedBlock IsEmpty).2 = some ApiError.ErrNoStagedBlock := by
    intro hno
    rcases getFirstStagedBlock_cases IsEmpty bs hz
        (fun b _ hs => hstaged b hs) with ⟨_, herr⟩ | ⟨_, hmem, hst, _⟩
    · exact herr
    · exact absurd hst (hno _ hmem)
  refine ⟨⟨fun herr => ?_, hdir⟩, rfl, fun hcr => hdir (fun b hb => ?_)⟩
  · rcases getFirstStagedBlock_cases IsEmpty bs hz
        (fun b _ hs => hstaged b hs) with ⟨hno, _⟩ | ⟨hnil, _⟩
    · exact hno
    · rw [hnil] at herr
      cases herr
  · rw [hcr b hb]
    decide

/-- Witness of C9: a pool of two `Created` blocks of heights 8 and 3, and the test
that holds of the zero block only. -/
theorem getFirstStagedBlock_error_iff_witness :
    decide (DefaultBlock.zero = DefaultBlock.zero) = true ∧
    (∀ b : DefaultBlock, b.State = BlockState.Staged →
      decide (b = DefaultBlock.zero) = false) ∧
    ((poolOf [{ Seal := some [8], PrevSeal := none, Height := 8, Body := [],
                State := BlockState.Created },
              { Seal := some [3], PrevSeal := none, Height := 3, Body := [],
                State := BlockState.Created }]).GetFirstStagedBlock
        (fun b => decide (b = DefaultBlock.zero))).2
      = some ApiError.ErrNoStagedBlock :=
  ⟨by decide,
   fun b hs => decide_eq_false (fun h => absurd (h ▸ hs) (by decide)),
   (getFirstStagedBlock_error_iff (fun b => decide (b = DefaultBlock.zero))
      [{ Seal := some [8], PrevSeal := none, Height := 8, Body := [],
                State := BlockState.Created },
              { Seal := some [3], PrevSeal := none, Height := 3, Body := [],
                State := BlockState.Created }]
      (by decide)
      (fun b hs => decide_eq_false (fun h => absurd (h ▸ hs) (by decide)))).2.2
     (by decide)⟩

end ApiGateway

namespace ApiGateway

/-- The loop of `RemoveById`, when it finds an index: the blocks split at that
index into the blocks before it, none of which has the seal `id`, the block at
it, which has the seal `id`, and the blocks after it. -/
theorem removeByIdLoop_some (id : GoString) (blocks : List Block) (i k : Nat)
    (h : removeByIdLoop id i blocks = some k) :
    ∃ pre x post, blocks = pre ++ x :: post ∧ k = i + pre.length ∧
      x.GetSeal.toStr = id ∧ ∀ b ∈ pre, b.GetSeal.toStr ≠ id := by
  induction blocks generalizing i with
  | nil => simp [removeByIdLoop] at h
  | cons b rest ih =>
    unfold removeByIdLoop at h
    by_cases hb : b.GetSeal.toStr = id
    · rw [if_pos hb] at h
      refine ⟨[], b, rest, rfl, ?_, hb, fun c hc => absurd hc (List.not_mem_nil c)⟩
      simpa using h.symm
    · rw [if_neg hb] at h
      obtain ⟨pre, x, post, hsplit, hk, hx, hpre⟩ := ih (i + 1) h
      refine ⟨b :: pre, x, post, by rw [hsplit]; rfl, ?_, hx, ?_⟩
      · simp only [List.length_cons]
        omega
      · intro c hc
        rcases List.mem_cons.1 hc with hcb | hcp
        · rw [hcb]
          exact hb
        · exact hpre c hcp

/-- The effect of `RemoveById` when some pooled block has the seal `id`: the pool
splits around the first such block, and the call returns nil and leaves the
blocks before and after it. -/
theorem removeById_split (r : BlockPoolRepositoryImpl) (id : GoString)
    (h : ∃ b ∈ r.Blocks, b.GetSeal.toStr = id) :
    ∃ pre x post, r.Blocks = pre ++ x :: post ∧ x.GetSeal.toStr = id ∧
      (∀ b ∈ pre, b.GetSeal.toStr ≠ id) ∧
      r.RemoveById id = ({ Blocks := pre ++ post }, none) := by
  cases hl : removeByIdLoop id 0 r.Blocks with
  | none =>
    obtain ⟨b, hb, hid⟩ := h
    exact absurd hid ((removeByIdLoop_none_iff id r.Blocks 0).1 hl b hb)
  | some k =>
    obtain ⟨pre, x, post, hsplit, hk, hx, hpre⟩ := removeByIdLoop_some id r.Blocks 0 k hl
    refine ⟨pre, x, post, hsplit, hx, hpre, ?_⟩
    have hk2 : k = pre.length := by omega
    unfold BlockPoolRepositoryImpl.RemoveById
    rw [hl]
    simp only [hsplit, hk2]
    have h1 : List.take pre.length (pre ++ x :: post) = pre := by simp
    have h2 : List.drop (pre.length + 1) (pre ++ x :: post) = post := by simp
    rw [h1, h2]

/-- C11: when some pooled block has the seal `id`, `RemoveById id` returns nil and
removes one entry, the first block whose seal is `id`: the old pool is
`pre ++ x :: post` where `x` has the seal `id` and no block of `pre` has, the new
pool is `pre ++ post`, so the other blocks keep their order, and its length is
the old length minus one. -/
theorem removeById_removes_first (r : BlockPoolRepositoryImpl) (id : GoString)
    (h : ∃ b ∈ r.Blocks, b.GetSeal.toStr = id) :
    ∃ pre x post, r.Blocks = pre ++ x :: post ∧ x.GetSeal.toStr = id ∧
      (∀ b ∈ pre, b.GetSeal.toStr ≠ id) ∧
      r.RemoveById id = ({ Blocks := pre ++ post }, none) ∧
      (r.RemoveById id).1.Blocks.length = r.Blocks.length - 1 := by
  obtain ⟨pre, x, post, hsplit, hx, hpre, hrem⟩ := removeById_split r id h
  refine ⟨pre, x, post, hsplit, hx, hpre, hrem, ?_⟩
  rw [hrem, hsplit]
  simp

/-- Witness of C11: three pooled blocks with the seals 1, 2 and 3; the one with
seal 2 is removed. -/
theorem removeById_removes_first_witness :
    (∃ b ∈ (poolOf [{ Seal := some [1], PrevSeal := none, Height := 1, Body := [],
                      State := BlockState.Staged },
                    { Seal := some [2], PrevSeal := none, Height := 2, Body := [],
                      State := BlockState.Created },
                    { Seal := some [3], PrevSeal := none, Height := 3, Body := [],
                      State := BlockState.Created }]).Blocks, b.GetSeal.toStr = [2]) ∧
    ((poolOf [{ Seal := some [1], PrevSeal := none, Height := 1, Body := [],
                State := BlockState.Staged },
              { Seal := some [2], PrevSeal := none, Height := 2, Body := [],
                State := BlockState.Created },
              { Seal := some [3], PrevSeal := none, Height := 3, Body := [],
                State := BlockState.Created }]).RemoveById [2]
      = (poolOf [{ Seal := some [1], PrevSeal := none, Height := 1, Body := [],
                   State := BlockState.Staged },
                 { Seal := some [3], PrevSeal := none, Height := 3, Body := [],
                   State := BlockState.Created }], none)) ∧
    (∃ pre x post,
      (poolOf [{ Seal := some [1], PrevSeal := none, Height := 1, Body := [],
                 State := BlockState.Staged },
               { Seal := some [2], PrevSeal := none, Height := 2, Body := [],
                 State := BlockState.Created },
               { Seal := some [3], PrevSeal := none, Height := 3, Body := [],
                 State := BlockState.Created }]).Blocks = pre ++ x :: post ∧
      x.GetSeal.toStr = [2] ∧ ∀ b ∈ pre, b.GetSeal.toStr ≠ [2]) :=
  ⟨by decide, by decide,
   (removeById_removes_first
      (poolOf [{ Seal := some [1], PrevSeal := none, Height := 1, Body := [],
                 State := BlockState.Staged },
               { Seal := some [2], PrevSeal := none, Height := 2, Body := [],
                 State := BlockState.Created },
               { Seal := some [3], PrevSeal := none, Height := 3, Body := [],
                 State := BlockState.Created }]) [2] (by decide)).imp
     fun _ hpre => hpre.imp fun _ hx => hx.imp fun _ hall => ⟨hall.1, hall.2.1, hall.2.2.1⟩⟩

/-- The loop of `GetStagedBlockById` over blocks none of which has the seal `id`:
it returns `ErrNoStagedBlock`. -/
theorem getStagedBlockByIdLoop_miss (id : GoString) (blocks : List Block)
    (h : ∀ b ∈ blocks, b.GetSeal.toStr ≠ id) :
    getStagedBlockByIdLoop id blocks = (DefaultBlock.zero, some ApiError.ErrNoStagedBlock) := by
  induction blocks with
  | nil => rfl
  | cons b rest ih =>
    unfold getStagedBlockByIdLoop
    rw [if_neg (h b (List.mem_cons_self b rest))]
    exact ih (fun c hc => h c (List.mem_cons_of_mem b hc))

/-- C12 as stated fails when two pooled blocks have the same seal. The two blocks
are added to a new pool by `AddCreatedBlock` without error; `RemoveById` removes
the first one and returns nil; after it `GetStagedBlockById` still finds the
second one and a second `RemoveById` returns nil again. -/
theorem removeById_then_found_of_duplicate_seal :
    ((NewBlockPoolRepository.AddCreatedBlock
          { Seal := some [1], PrevSeal := none, Height := 1, Body := [],
            State := BlockState.Created }).1.AddCreatedBlock
        { Seal := some [1], PrevSeal := none, Height := 2, Body := [],
          State := BlockState.Created })
      = (poolOf [{ Seal := some [1], PrevSeal := none, Height := 1, Body := [],
                   State := BlockState.Created },
                 { Seal := some [1], PrevSeal := none, Height := 2, Body := [],
                   State := BlockState.Created }], none) ∧
    (poolOf [{ Seal := some [1], PrevSeal := none, Height := 1, Body := [],
               State := BlockState.Created },
             { Seal := some [1], PrevSeal := none, Height := 2, Body := [],
               State := BlockState.Created }]).RemoveById [1]
      = (poolOf [{ Seal := some [1], PrevSeal := none, Height := 2, Body := [],
                   State := BlockState.Created }], none) ∧
    (poolOf [{ Seal := some [1], PrevSeal := none, Height := 2, Body := [],
               State := BlockState.Created }]).GetStagedBlockById [1]
      = ({ Seal := some [1], PrevSeal := none, Height := 2, Body := [],
           State := BlockState.Created }, none) ∧
    ((poolOf [{ Seal := some [1], PrevSeal := none, Height := 2, Body := [],
                State := BlockState.Created }]).RemoveById [1]).2 = none := by
  decide

/-- C12, amended: when exactly one pooled block has the seal `id`, `RemoveById id`
returns nil and every lookup by that id misses afterwards: `GetStagedBlockById id`
returns `ErrNoStagedBlock`, and a second `RemoveById id` returns
`ErrFailRemoveBlock` and leaves the pool as it is. -/
theorem removeById_then_miss (r : BlockPoolRepositoryImpl) (id : GoString)
    (h1 : List.countP (fun b => decide (b.GetSeal.toStr = id)) r.Blocks = 1) :
    (r.RemoveById id).2 = none ∧
    (r.RemoveById id).1.GetStagedBlockById id
      = (DefaultBlock.zero, some ApiError.ErrNoStagedBlock) ∧
    (r.RemoveById id).1.RemoveById id
      = ((r.RemoveById id).1, some ApiError.ErrFailRemoveBlock) := by
  have hex : ∃ b ∈ r.Blocks, b.GetSeal.toStr = id := by
    have hpos : 0 < List.countP (fun b => decide (b.GetSeal.toStr = id)) r.Blocks := by
      rw [h1]
      exact Nat.one_pos
    obtain ⟨b, hb, hid⟩ := List.countP_pos_iff.1 hpos
    exact ⟨b, hb, of_decide_eq_true hid⟩
  obtain ⟨pre, x, post, hsplit, hx, hpre, hrem⟩ := removeById_split r id hex
  have hpre0 : List.countP (fun b => decide (b.GetSeal.toStr = id)) pre = 0 :=
    List.countP_eq_zero.2 (fun b hb => by simpa using hpre b hb)
  have hpost0 : List.countP (fun b => decide (b.GetSeal.toStr = id)) post = 0 := by
    rw [hsplit, List.countP_append, List.countP_cons, hpre0] at h1
    simp only [hx, decide_True, if_true] at h1
    omega
  have hpost : ∀ b ∈ post, b.GetSeal.toStr ≠ id := fun b hb =>
    by simpa using List.countP_eq_zero.1 hpost0 b hb
  have hall : ∀ b ∈ pre ++ post, b.GetSeal.toStr ≠ id := by
    intro b hb
    rcases List.mem_append.1 hb with hb1 | hb2
    · exact hpre b hb1
    · exact hpost b hb2
  rw [hrem]
  refine ⟨rfl, ?_, ?_⟩
  · exact getStagedBlockByIdLoop_miss id (pre ++ post) hall
  · unfold BlockPoolRepositoryImpl.RemoveById
    rw [(removeByIdLoop_none_iff id (pre ++ post) 0).2 hall]

/-- Witness of C12, amended: three pooled blocks with the seals 1, 2 and 3; the
seal 2 is looked up after its removal. -/
theorem removeById_then_miss_witness :
    List.countP (fun b => decide (b.GetSeal.toStr = [2]))
      (poolOf [{ Seal := some [1], PrevSeal := none, Height := 1, Body := [],
                 State := BlockState.Staged },
               { Seal := some [2], PrevSeal := none, Height := 2, Body := [],
                 State := BlockState.Created },
               { Seal := some [3], PrevSeal := none, Height := 3, Body := [],
                 State := BlockState.Created }]).Blocks = 1 ∧
    (((poolOf [{ Seal := some [1], PrevSeal := none, Height := 1, Body := [],
                 State := BlockState.Staged },
               { Seal := some [2], PrevSeal := none, Height := 2, Body := [],
                 State := BlockState.Created },
               { Seal := some [3], PrevSeal := none, Height := 3, Body := [],
                 State := BlockState.Created }]).RemoveById [2]).1.GetStagedBlockById [2]
      = (DefaultBlock.zero, some ApiError.ErrNoStagedBlock)) :=
  ⟨by decide,
   (removeById_then_miss
      (poolOf [{ Seal := some [1], PrevSeal := none, Height := 1, Body := [],
                 State := BlockState.Staged },
               { Seal := some [2], PrevSeal := none, Height := 2, Body := [],
                 State := BlockState.Created },
               { Seal := some [3], PrevSeal := none, Height := 3, Body := [],
                 State := BlockState.Created }]) [2] (by decide)).2.1⟩

/-- The loop of `GetStagedBlockByHeight` over `DefaultBlock` entries returns the
first entry of height `height` with a nil error, and `ErrNoStagedBlock` when
there is none. -/
theorem getStagedBlockByHeightLoop_eq_find (height : Nat) (bs : List DefaultBlock) :
    getStagedBlockByHeightLoop height (bs.map Block.Default) =
      match bs.find? (fun b => decide (b.Height = height)) with
      | some d => (d, none)
      | none => (DefaultBlock.zero, some ApiError.ErrNoStagedBlock) := by
  induction bs with
  | nil => rfl
  | cons d rest ih =>
    simp only [List.map_cons, getStagedBlockByHeightLoop, Block.GetHeight, List.find?_cons]
    by_cases hd : d.Height = height
    · simp [hd]
    · simp [hd, ih]

/-- The loop of `GetStagedBlockById` over `DefaultBlock` entries returns the first
entry whose seal is `id` with a nil error, and `ErrNoStagedBlock` when there is
none. -/
theorem getStagedBlockByIdLoop_eq_find (id : GoString) (bs : List DefaultBlock) :
    getStagedBlockByIdLoop id (bs.map Block.Default) =
      match bs.find? (fun b => decide (b.Seal.toStr = id)) with
      | some d => (d, none)
      | none => (DefaultBlock.zero, some ApiError.ErrNoStagedBlock) := by
  induction bs with
  | nil => rfl
  | cons d rest ih =>
    simp only [List.map_cons, getStagedBlockByIdLoop, Block.GetSeal, List.find?_cons]
    by_cases hd : d.Seal.toStr = id
    · simp [hd]
    · simp [hd, ih]

/-- C13: on every pool of `DefaultBlock` entries, `GetStagedBlockByHeight h`
returns `ErrNoStagedBlock` exactly when no pooled block has the height `h`, and
otherwise the first pooled block of height `h` with a nil error;
`GetStagedBlockById id` returns `ErrNoStagedBlock` exactly when no pooled block
has the seal `id`, and otherwise the first pooled block with that seal with a nil
error. -/
theorem getStagedBlock_lookup_spec (bs : List DefaultBlock) (h : Nat) (id : GoString) :
    (((poolOf bs).GetStagedBlockByHeight h).2 = some ApiError.ErrNoStagedBlock ↔
      ∀ b ∈ bs, b.Height ≠ h) ∧
    (∀ d, bs.find? (fun b => decide (b.Height = h)) = some d →
      (poolOf bs).GetStagedBlockByHeight h = (d, none)) ∧
    ((∃ b ∈ bs, b.Height = h) →
      ∃ d, bs.find? (fun b => decide (b.Height = h)) = some d) ∧
    (((poolOf bs).GetStagedBlockById id).2 = some ApiError.ErrNoStagedBlock ↔
      ∀ b ∈ bs, b.Seal.toStr ≠ id) ∧
    (∀ d, bs.find? (fun b => decide (b.Seal.toStr = id)) = some d →
      (poolOf bs).GetStagedBlockById id = (d, none)) ∧
    ((∃ b ∈ bs, b.Seal.toStr = id) →
      ∃ d, bs.find? (fun b => decide (b.Seal.toStr = id)) = some d) := by
  have hH := getStagedBlockByHeightLoop_eq_find h bs
  have hI := getStagedBlockByIdLoop_eq_find id bs
  unfold BlockPoolRepositoryImpl.GetStagedBlockByHeight
    BlockPoolRepositoryImpl.GetStagedBlockById poolOf
  simp only []
  rw [hH, hI]
  refine ⟨?_, ?_, ?_, ?_, ?_, ?_⟩
  · cases hf : bs.find? (fun b => decide (b.Height = h)) with
    | none =>
      simp only [true_iff]
      intro b hb
      simpa using List.find?_eq_none.1 hf b hb
    | some d =>
      simp only [false_iff, reduceCtorEq]
      intro hall
      exact hall d (List.mem_of_find?_eq_some hf) (by simpa using List.find?_some hf)
  · intro d hf
    rw [hf]
  · rintro ⟨b, hb, hbh⟩
    cases hf : bs.find? (fun b => decide (b.Height = h)) with
    | none => exact absurd hbh (by simpa using List.find?_eq_none.1 hf b hb)
    | some d => exact ⟨d, rfl⟩
  · cases hf : bs.find? (fun b => decide (b.Seal.toStr = id)) with
    | none =>
      simp only [true_iff]
      intro b hb
      simpa using List.find?_eq_none.1 hf b hb
    | some d =>
      simp only [false_iff, reduceCtorEq]
      intro hall
      exact hall d (List.mem_of_find?_eq_some hf) (by simpa using List.find?_some hf)
  · intro d hf
    rw [hf]
  · rintro ⟨b, hb, hbh⟩
    cases hf : bs.find? (fun b => decide (b.Seal.toStr = id)) with
    | none => exact absurd hbh (by simpa using List.find?_eq_none.1 hf b hb)
    | some d => exact ⟨d, rfl⟩

/-- C14 fails on the code: the two staged lookups of `BlockQueryApi` return
`nil, nil` whatever the pool holds. Here the pool holds one `Staged` block of
height 1 and seal 1: the repository returns that block for the height 1 and for
the seal 1, and `ErrNoStagedBlock` for the height 7 and the seal 7, while the
query surface returns no block and no error every time. -/
theorem blockQueryApi_staged_lookups_return_nil :
    (BlockQueryApi.GetStagedBlockByHeight (ε := Unit)
        { blockPoolRepository :=
            poolOf [{ Seal := some [1], PrevSeal := none, Height := 1, Body := [],
                      State := BlockState.Staged }],
          commitedBlockRepository :=
            { BlockStorageManager :=
                { GetLastBlock := fun out => (out, none),
                  GetBlockByHeight := fun out _ => (out, none) } } } 1 = (none, none)) ∧
    ((poolOf [{ Seal := some [1], PrevSeal := none, Height := 1, Body := [],
                State := BlockState.Staged }]).GetStagedBlockByHeight 1
      = ({ Seal := some [1], PrevSeal := none, Height := 1, Body := [],
           State := BlockState.Staged }, none)) ∧
    (BlockQueryApi.GetStagedBlockById (ε := Unit)
        { blockPoolRepository :=
            poolOf [{ Seal := some [1], PrevSeal := none, Height := 1, Body := [],
                      State := BlockState.Staged }],
          commitedBlockRepository :=
            { BlockStorageManager :=
                { GetLastBlock := fun out => (out, none),
                  GetBlockByHeight := fun out _ => (out, none) } } } [1] = (none, none)) ∧
    ((poolOf [{ Seal := some [1], PrevSeal := none, Height := 1, Body := [],
                State := BlockState.Staged }]).GetStagedBlockById [1]
      = ({ Seal := some [1], PrevSeal := none, Height := 1, Body := [],
           State := BlockState.Staged }, none)) ∧
    (BlockQueryApi.GetStagedBlockByHeight (ε := Unit)
        { blockPoolRepository :=
            poolOf [{ Seal := some [1], PrevSeal := none, Height := 1, Body := [],
                      State := BlockState.Staged }],
          commitedBlockRepository :=
            { BlockStorageManager :=
                { GetLastBlock := fun out => (out, none),
                  GetBlockByHeight := fun out _ => (out, none) } } } 7 = (none, none)) ∧
    (((poolOf [{ Seal := some [1], PrevSeal := none, Height := 1, Body := [],
                 State := BlockState.Staged }]).GetStagedBlockByHeight 7).2
      = some ApiError.ErrNoStagedBlock) ∧
    (((poolOf [{ Seal := some [1], PrevSeal := none, Height := 1, Body := [],
                 State := BlockState.Staged }]).GetStagedBlockById [7]).2
      = some ApiError.ErrNoStagedBlock) := by
  refine ⟨rfl, ?_, rfl, ?_, rfl, ?_, ?_⟩ <;> decide

/-- C15: `GetLastBlock` and `GetBlockByHeight` of the repository of committed
blocks return `ErrGetCommitedBlock`, with the zero block, exactly when the read of
the storage engine returns an error, whatever the error is, and otherwise return
with a nil error the block the engine wrote. -/
theorem commitedBlockRepository_reads_spec {ε : Type} (cbr : CommitedBlockRepositoryImpl ε)
    (height : Nat) :
    ((cbr.GetLastBlock).2 = some ApiError.ErrGetCommitedBlock ↔
      (cbr.BlockStorageManager.GetLastBlock DefaultBlock.zero).2 ≠ none) ∧
    (∀ e, (cbr.BlockStorageManager.GetLastBlock DefaultBlock.zero).2 = some e →
      cbr.GetLastBlock = (DefaultBlock.zero, some ApiError.ErrGetCommitedBlock)) ∧
    ((cbr.BlockStorageManager.GetLastBlock DefaultBlock.zero).2 = none →
      cbr.GetLastBlock = ((cbr.BlockStorageManager.GetLastBlock DefaultBlock.zero).1, none)) ∧
    ((cbr.GetBlockByHeight height).2 = some ApiError.ErrGetCommitedBlock ↔
      (cbr.BlockStorageManager.GetBlockByHeight DefaultBlock.zero height).2 ≠ none) ∧
    (∀ e, (cbr.BlockStorageManager.GetBlockByHeight DefaultBlock.zero height).2 = some e →
      cbr.GetBlockByHeight height = (DefaultBlock.zero, some ApiError.ErrGetCommitedBlock)) ∧
    ((cbr.BlockStorageManager.GetBlockByHeight DefaultBlock.zero height).2 = none →
      cbr.GetBlockByHeight height
        = ((cbr.BlockStorageManager.GetBlockByHeight DefaultBlock.zero height).1, none)) := by
  unfold CommitedBlockRepositoryImpl.GetLastBlock CommitedBlockRepositoryImpl.GetBlockByHeight
  refine ⟨?_, ?_, ?_, ?_, ?_, ?_⟩
  · cases hr : (cbr.BlockStorageManager.GetLastBlock DefaultBlock.zero).2 <;> simp [hr]
  · intro e he
    simp [he]
  · intro he
    simp [he]
  · cases hr : (cbr.BlockStorageManager.GetBlockByHeight DefaultBlock.zero height).2 <;> simp [hr]
  · intro e he
    simp [he]
  · intro he
    simp [he]

/-- The loop of `GetFirstStagedBlock` started on a candidate that is not empty,
over `DefaultBlock` entries: it ends on the first candidate, or on a block visited
whose height is below the height of the first candidate and below the height of
every `Staged` block visited before it. -/
theorem getFirstStagedBlockLoop_first_of_candidate (IsEmpty : DefaultBlock → Bool)
    (bs : List DefaultBlock) (target : DefaultBlock) (ht : IsEmpty target = false)
    (hne : ∀ b ∈ bs, b.State = BlockState.Staged → IsEmpty b = false) :
    ∃ t, getFirstStagedBlockLoop IsEmpty target (bs.map Block.Default) = some t ∧
      (t = target ∨
       ∃ pre post, bs = pre ++ t :: post ∧ t.Height < target.Height ∧
         ∀ c ∈ pre, c.State = BlockState.Staged → t.Height < c.Height) := by
  induction bs generalizing target with
  | nil => exact ⟨target, rfl, Or.inl rfl⟩
  | cons d rest ih =>
    have hrest : ∀ b ∈ rest, b.State = BlockState.Staged → IsEmpty b = false :=
      fun b hb => hne b (List.mem_cons_of_mem d hb)
    simp only [List.map_cons, getFirstStagedBlockLoop]
    by_cases hs : stagedBlockWithSmallerHeight IsEmpty target d = true
    · rw [if_pos hs]
      have hs2 := (stagedBlockWithSmallerHeight_iff IsEmpty target d).1 hs
      have hlt : d.Height < target.Height := by
        rcases hs2.2 with h | h
        · exact h
        · rw [ht] at h
          cases h
      obtain ⟨t, hrun, hcase⟩ := ih d (hne d (List.mem_cons_self d rest) hs2.1) hrest
      refine ⟨t, hrun, Or.inr ?_⟩
      rcases hcase with h | ⟨pre, post, hsplit, hltd, hpre⟩
      · refine ⟨[], rest, by rw [h]; rfl, by rw [h]; exact hlt, ?_⟩
        intro c hc
        exact absurd hc (List.not_mem_nil c)
      · refine ⟨d :: pre, post, by rw [hsplit]; rfl, by omega, ?_⟩
        intro c hc hcs
        rcases List.mem_cons.1 hc with h | h
        · rw [h]
          exact hltd
        · exact hpre c h hcs
    · rw [if_neg hs]
      obtain ⟨t, hrun, hcase⟩ := ih target ht hrest
      refine ⟨t, hrun, ?_⟩
      rcases hcase with h | ⟨pre, post, hsplit, hltt, hpre⟩
      · exact Or.inl h
      · refine Or.inr ⟨d :: pre, post, by rw [hsplit]; rfl, hltt, ?_⟩
        intro c hc hcs
        rcases List.mem_cons.1 hc with h | h
        · subst h
          have hnlt : ¬ c.Height < target.Height := fun hlt =>
            hs ((stagedBlockWithSmallerHeight_iff IsEmpty target c).2 ⟨hcs, Or.inl hlt⟩)
          omega
        · exact hpre c h hcs

/-- The loop of `GetFirstStagedBlock` started on an empty candidate, over
`DefaultBlock` entries one of which is `Staged`: it ends on a block visited whose
height is below the height of every `Staged` block visited before it. -/
theorem getFirstStagedBlockLoop_first_of_empty (IsEmpty : DefaultBlock → Bool)
    (bs : List DefaultBlock) (target : DefaultBlock) (ht : IsEmpty target = true)
    (hne : ∀ b ∈ bs, b.State = BlockState.Staged → IsEmpty b = false)
    (hst : ∃ b ∈ bs, b.State = BlockState.Staged) :
    ∃ t pre post, getFirstStagedBlockLoop IsEmpty target (bs.map Block.Default) = some t ∧
      bs = pre ++ t :: post ∧
      ∀ c ∈ pre, c.State = BlockState.Staged → t.Height < c.Height := by
  induction bs with
  | nil =>
    obtain ⟨b, hb, _⟩ := hst
    exact absurd hb (List.not_mem_nil b)
  | cons d rest ih =>
    have hrest : ∀ b ∈ rest, b.State = BlockState.Staged → IsEmpty b = false :=
      fun b hb => hne b (List.mem_cons_of_mem d hb)
    simp only [List.map_cons, getFirstStagedBlockLoop]
    by_cases hd : d.State = BlockState.Staged
    · have hs : stagedBlockWithSmallerHeight IsEmpty target d = true :=
        (stagedBlockWithSmallerHeight_iff IsEmpty target d).2 ⟨hd, Or.inr ht⟩
      rw [if_pos hs]
      obtain ⟨t, hrun, hcase⟩ :=
        getFirstStagedBlockLoop_first_of_candidate IsEmpty rest d
          (hne d (List.mem_cons_self d rest) hd) hrest
      rcases hcase with h | ⟨pre, post, hsplit, hltd, hpre⟩
      · exact ⟨t, [], rest, hrun, by rw [h]; rfl,
          fun c hc => absurd hc (List.not_mem_nil c)⟩
      · refine ⟨t, d :: pre, post, hrun, by rw [hsplit]; rfl, ?_⟩
        intro c hc hcs
        rcases List.mem_cons.1 hc with h | h
        · rw [h]
          exact hltd
        · exact hpre c h hcs
    · have hs : ¬ stagedBlockWithSmallerHeight IsEmpty target d = true := fun h =>
        hd ((stagedBlockWithSmallerHeight_iff IsEmpty target d).1 h).1
      rw [if_neg hs]
      have hst2 : ∃ b ∈ rest, b.State = BlockState.Staged := by
        obtain ⟨b, hb, hbs⟩ := hst
        rcases List.mem_cons.1 hb with h | h
        · rw [h] at hbs
          exact absurd hbs hd
        · exact ⟨b, h, hbs⟩
      obtain ⟨t, pre, post, hrun, hsplit, hpre⟩ := ih hrest hst2
      refine ⟨t, d :: pre, post, hrun, by rw [hsplit]; rfl, ?_⟩
      intro c hc hcs
      rcases List.mem_cons.1 hc with h | h
      · rw [h] at hcs
        exact absurd hcs hd
      · exact hpre c h hcs

/-- C19: with `IsEmpty` the test for no candidate yet, true of the zero block and
false of every `Staged` block, on every pool of `DefaultBlock` entries that holds
a `Staged` block, the block that `GetFirstStagedBlock` returns is the first one,
in the order of the pool, among the `Staged` blocks of least height: the pool is
`pre ++ b :: post` where `b` is the block returned, every `Staged` block of `pre`
has a greater height and every `Staged` block of `post` has a height greater or
equal. A later block of equal height never replaces the candidate. -/
theorem getFirstStagedBlock_first_of_ties (IsEmpty : DefaultBlock → Bool)
    (bs : List DefaultBlock) (hz : IsEmpty DefaultBlock.zero = true)
    (hstaged : ∀ b : DefaultBlock, b.State = BlockState.Staged → IsEmpty b = false)
    (hst : ∃ b ∈ bs, b.State = BlockState.Staged) :
    ∃ pre post, bs = pre ++ ((poolOf bs).GetFirstStagedBlock IsEmpty).1 :: post ∧
      ((poolOf bs).GetFirstStagedBlock IsEmpty).2 = none ∧
      ((poolOf bs).GetFirstStagedBlock IsEmpty).1.State = BlockState.Staged ∧
      (∀ c ∈ pre, c.State = BlockState.Staged →
        ((poolOf bs).GetFirstStagedBlock IsEmpty).1.Height < c.Height) ∧
      (∀ c ∈ post, c.State = BlockState.Staged →
        ((poolOf bs).GetFirstStagedBlock IsEmpty).1.Height ≤ c.Height) := by
  have hne : ∀ b ∈ bs, b.State = BlockState.Staged → IsEmpty b = false :=
    fun b _ hs => hstaged b hs
  obtain ⟨t, pre, post, hrun, hsplit, hpre⟩ :=
    getFirstStagedBlockLoop_first_of_empty IsEmpty bs DefaultBlock.zero hz hne hst
  have hres : ((poolOf bs).GetFirstStagedBlock IsEmpty).1 = t := by
    unfold BlockPoolRepositoryImpl.GetFirstStagedBlock poolOf
    have hlen : ¬ (bs.map Block.Default).length = 0 := by
      obtain ⟨b, hb, _⟩ := hst
      cases bs with
      | nil => exact absurd hb (List.not_mem_nil b)
      | cons d rest => simp
    rw [if_neg hlen]
    simp only [hrun]
    by_cases he : IsEmpty t = true
    · rw [if_pos he]
    · rw [if_neg he]
  rcases getFirstStagedBlock_cases IsEmpty bs hz hne with ⟨hno, _⟩ | ⟨hnil, _, hres2, hmin⟩
  · obtain ⟨b, hb, hbs⟩ := hst
    exact absurd hbs (hno b hb)
  · refine ⟨pre, post, ?_, hnil, hres2, ?_, ?_⟩
    · rw [hres]
      exact hsplit
    · rw [hres]
      exact hpre
    · intro c hc hcs
      refine hmin c ?_ hcs
      rw [hsplit]
      exact List.mem_append_right pre (List.mem_cons_of_mem t hc)

/-- Witness of C19: two `Staged` blocks share the least height 2, and the test
holds of the zero block only; the one pooled first, with body 1, is returned. -/
theorem getFirstStagedBlock_first_of_ties_witness :
    decide (DefaultBlock.zero = DefaultBlock.zero) = true ∧
    (∀ b : DefaultBlock, b.State = BlockState.Staged →
      decide (b = DefaultBlock.zero) = false) ∧
    ((poolOf [{ Seal := some [5], PrevSeal := none, Height := 5, Body := [],
                State := BlockState.Staged },
              { Seal := some [2], PrevSeal := none, Height := 2, Body := [1],
                State := BlockState.Staged },
              { Seal := some [3], PrevSeal := none, Height := 2, Body := [2],
                State := BlockState.Staged },
              { Seal := some [8], PrevSeal := none, Height := 8, Body := [],
                State := BlockState.Created }]).GetFirstStagedBlock
        (fun b => decide (b = DefaultBlock.zero))
      = ({ Seal := some [2], PrevSeal := none, Height := 2, Body := [1],
           State := BlockState.Staged }, none)) ∧
    (∃ pre post,
      ([{ Seal := some [5], PrevSeal := none, Height := 5, Body := [],
                State := BlockState.Staged },
              { Seal := some [2], PrevSeal := none, Height := 2, Body := [1],
                State := BlockState.Staged },
              { Seal := some [3], PrevSeal := none, Height := 2, Body := [2],
                State := BlockState.Staged },
              { Seal := some [8], PrevSeal := none, Height := 8, Body := [],
                State := BlockState.Created }] : List DefaultBlock)
        = pre ++
          ((poolOf
              [{ Seal := some [5], PrevSeal := none, Height := 5, Body := [],
                 State := BlockState.Staged },
               { Seal := some [2], PrevSeal := none, Height := 2, Body := [1],
                 State := BlockState.Staged },
               { Seal := some [3], PrevSeal := none, Height := 2, Body := [2],
                 State := BlockState.Staged },
               { Seal := some [8], PrevSeal := none, Height := 8, Body := [],
                 State := BlockState.Created }]).GetFirstStagedBlock
              (fun b => decide (b = DefaultBlock.zero))).1 :: post) :=
  ⟨by decide,
   fun b hs => decide_eq_false (fun h => absurd (h ▸ hs) (by decide)),
   by decide,
   (getFirstStagedBlock_first_of_ties (fun b => decide (b = DefaultBlock.zero))
      [{ Seal := some [5], PrevSeal := none, Height := 5, Body := [],
                State := BlockState.Staged },
              { Seal := some [2], PrevSeal := none, Height := 2, Body := [1],
                State := BlockState.Staged },
              { Seal := some [3], PrevSeal := none, Height := 2, Body := [2],
                State := BlockState.Staged },
              { Seal := some [8], PrevSeal := none, Height := 8, Body := [],
                State := BlockState.Created }]
      (by decide)
      (fun b hs => decide_eq_false (fun h => absurd (h ▸ hs) (by decide)))
      (by decide)).imp
     fun _ hpre => hpre.imp fun _ hall => hall.1⟩

/-- One call of `AddCreatedBlock` or `RemoveById` keeps the property that every
pooled entry is a `DefaultBlock` in state `Created` or `Staged`. -/
theorem poolCall_run_keeps (r : BlockPoolRepositoryImpl) (c : PoolCall)
    (hr : ∀ e ∈ r.Blocks, ∃ d, e = Block.Default d ∧
      (d.State = BlockState.Created ∨ d.State = BlockState.Staged)) :
    ∀ e ∈ (c.run r).Blocks, ∃ d, e = Block.Default d ∧
      (d.State = BlockState.Created ∨ d.State = BlockState.Staged) := by
  cases c with
  | AddCreatedBlock block =>
    show ∀ e ∈ (r.AddCreatedBlock block).1.Blocks, ∃ d, e = Block.Default d ∧
      (d.State = BlockState.Created ∨ d.State = BlockState.Staged)
    unfold BlockPoolRepositoryImpl.AddCreatedBlock
    by_cases hv : validStateBlock block = true
    · rw [if_pos hv]
      intro e he
      rcases List.mem_append.1 he with h | h
      · exact hr e h
      · refine ⟨block, List.mem_singleton.1 h, ?_⟩
        have hv2 : block.State = BlockState.Staged ∨ block.State = BlockState.Created := by
          simpa [validStateBlock] using hv
        exact hv2.symm
    · rw [if_neg hv]
      exact hr
  | RemoveById id =>
    show ∀ e ∈ (r.RemoveById id).1.Blocks, ∃ d, e = Block.Default d ∧
      (d.State = BlockState.Created ∨ d.State = BlockState.Staged)
    unfold BlockPoolRepositoryImpl.RemoveById
    cases removeByIdLoop id 0 r.Blocks with
    | none => exact hr
    | some i =>
      intro e he
      rcases List.mem_append.1 he with h | h
      · exact hr e (List.mem_of_mem_take h)
      · exact hr e (List.mem_of_mem_drop h)

/-- A sequence of calls of `AddCreatedBlock` and `RemoveById` keeps the property
that every pooled entry is a `DefaultBlock` in state `Created` or `Staged`. -/
theorem runCalls_keeps (r : BlockPoolRepositoryImpl) (calls : List PoolCall)
    (hr : ∀ e ∈ r.Blocks, ∃ d, e = Block.Default d ∧
      (d.State = BlockState.Created ∨ d.State = BlockState.Staged)) :
    ∀ e ∈ (runCalls r calls).Blocks, ∃ d, e = Block.Default d ∧
      (d.State = BlockState.Created ∨ d.State = BlockState.Staged) := by
  induction calls generalizing r with
  | nil => exact hr
  | cons c cs ih => exact ih (c.run r) (poolCall_run_keeps r c hr)

/-- Blocks that are all `DefaultBlock` entries are the image of a list of
`DefaultBlock` values. -/
theorem blocks_eq_map_default (blocks : List Block)
    (h : ∀ e ∈ blocks, ∃ d, e = Block.Default d) :
    ∃ bs : List DefaultBlock, blocks = bs.map Block.Default := by
  induction blocks with
  | nil => exact ⟨[], rfl⟩
  | cons e rest ih =>
    obtain ⟨d, hd⟩ := h e (List.mem_cons_self e rest)
    obtain ⟨bs, hbs⟩ := ih (fun x hx => h x (List.mem_cons_of_mem e hx))
    exact ⟨d :: bs, by rw [hd, hbs]; rfl⟩

/-- The loop of `GetFirstStagedBlock` over `DefaultBlock` entries never fails the
type assertion. -/
theorem getFirstStagedBlockLoop_isSome (IsEmpty : DefaultBlock → Bool)
    (bs : List DefaultBlock) (target : DefaultBlock) :
    ∃ t, getFirstStagedBlockLoop IsEmpty target (bs.map Block.Default) = some t := by
  induction bs generalizing target with
  | nil => exact ⟨target, rfl⟩
  | cons d rest ih =>
    simp only [List.map_cons, getFirstStagedBlockLoop]
    by_cases hs : stagedBlockWithSmallerHeight IsEmpty target d = true
    · rw [if_pos hs]
      exact ih d
    · rw [if_neg hs]
      exact ih target

/-- C20: in every pool reached from `NewBlockPoolRepository` by a sequence of
`AddCreatedBlock` and `RemoveById` calls, every entry is a `DefaultBlock` in
state `Created` or `Staged`, so none is `Committed`, and no lookup returns
`ErrFailBlockTypeCasting`. -/
theorem pool_state_invariant (calls : List PoolCall) :
    (∀ e ∈ (runCalls NewBlockPoolRepository calls).Blocks,
      ∃ d, e = Block.Default d ∧
        (d.State = BlockState.Created ∨ d.State = BlockState.Staged) ∧
        d.State ≠ BlockState.Committed) ∧
    (∀ height, ((runCalls NewBlockPoolRepository calls).GetStagedBlockByHeight height).2
      ≠ some ApiError.ErrFailBlockTypeCasting) ∧
    (∀ id, ((runCalls NewBlockPoolRepository calls).GetStagedBlockById id).2
      ≠ some ApiError.ErrFailBlockTypeCasting) ∧
    (∀ IsEmpty, ((runCalls NewBlockPoolRepository calls).GetFirstStagedBlock IsEmpty).2
      ≠ some ApiError.ErrFailBlockTypeCasting) := by
  have hinv := runCalls_keeps NewBlockPoolRepository calls
    (fun e he => absurd he (List.not_mem_nil e))
  obtain ⟨bs, hbs⟩ := blocks_eq_map_default (runCalls NewBlockPoolRepository calls).Blocks
    (fun e he => (hinv e he).imp fun _ hd => hd.1)
  refine ⟨?_, ?_, ?_, ?_⟩
  · intro e he
    obtain ⟨d, hd, hstate⟩ := hinv e he
    refine ⟨d, hd, hstate, ?_⟩
    rcases hstate with h | h <;> rw [h] <;> decide
  · intro height
    unfold BlockPoolRepositoryImpl.GetStagedBlockByHeight
    rw [hbs, getStagedBlockByHeightLoop_eq_find]
    cases bs.find? (fun b => decide (b.Height = height)) <;> simp
  · intro id
    unfold BlockPoolRepositoryImpl.GetStagedBlockById
    rw [hbs, getStagedBlockByIdLoop_eq_find]
    cases bs.find? (fun b => decide (b.Seal.toStr = id)) <;> simp
  · intro IsEmpty
    unfold BlockPoolRepositoryImpl.GetFirstStagedBlock
    by_cases hlen : (runCalls NewBlockPoolRepository calls).Blocks.length = 0
    · rw [if_pos hlen]
      decide
    · rw [if_neg hlen, hbs]
      obtain ⟨t, ht⟩ := getFirstStagedBlockLoop_isSome IsEmpty bs DefaultBlock.zero
      simp only [ht]
      by_cases he : IsEmpty t = true
      · rw [if_pos he]
        exact fun h => by cases h
      · rw [if_neg he]
        exact fun h => by cases h

end ApiGateway

namespace ConsensusFactory

/-- C16: `CreateConsensus p b` returns an error when `p` has fewer than 2 members,
so for the empty list; when `p` has 2 members or more it returns no error and a
round with as many representatives as `p` has members and with the seal and the
body of `b`. -/
theorem createConsensus_spec (freshId : ConsensusId) (p : List MemberId) (b : ProposedBlock) :
    (p.length < 2 → ∃ e, CreateConsensus freshId p b = Except.error e) ∧
    (∃ e, CreateConsensus freshId [] b = Except.error e) ∧
    (2 ≤ p.length →
      ∃ c, CreateConsensus freshId p b = Except.ok c ∧
        c.Representatives.length = p.length ∧ c.Block.Seal = b.Seal ∧
        c.Block.Body = b.Body) := by
  unfold CreateConsensus
  refine ⟨?_, ⟨ConsensusError.EmptyRepresentativeSet, rfl⟩, ?_⟩
  · intro h
    exact ⟨ConsensusError.EmptyRepresentativeSet, by rw [if_pos h]⟩
  · intro h
    have hn : ¬ p.length < 2 := by omega
    rw [if_neg hn]
    exact ⟨_, rfl, by simp, rfl, rfl⟩

/-- C17: for a message with a representative list that is not empty,
`ConstructConsensus` returns no error and a round with the id of the message, the
representatives of the message, in their order, and the state `IDLE_STATE`. -/
theorem constructConsensus_spec (m : PrePrepareMsg) (h : m.Representative ≠ []) :
    ∃ c, ConstructConsensus m = Except.ok c ∧ c.ConsensusID = m.ConsensusId ∧
      c.Representatives = m.Representative ∧
      c.Representatives.length = m.Representative.length ∧
      c.CurrentState = RoundState.IDLE_STATE := by
  unfold ConstructConsensus
  have hn : ¬ m.Representative.length = 0 := fun h0 => h (List.length_eq_zero.1 h0)
  rw [if_neg hn]
  exact ⟨_, rfl, rfl, rfl, rfl, rfl⟩

/-- Witness of C17: the message of `TestConstructConsensus`. -/
theorem constructConsensus_spec_witness :
    ([NewRepresentative "leader", NewRepresentative "member"] ≠ []) ∧
    (∃ c, ConstructConsensus
          { ConsensusId := { Id := "consensusID" }, SenderId := "me",
            Representative := [NewRepresentative "leader", NewRepresentative "member"],
            ProposedBlock := { Seal := [], Body := [] } } = Except.ok c ∧
        c.ConsensusID = { Id := "consensusID" } ∧
        c.Representatives = [NewRepresentative "leader", NewRepresentative "member"] ∧
        c.Representatives.length = 2 ∧
        c.CurrentState = RoundState.IDLE_STATE) :=
  ⟨by decide,
   constructConsensus_spec
     { ConsensusId := { Id := "consensusID" }, SenderId := "me",
       Representative := [NewRepresentative "leader", NewRepresentative "member"],
       ProposedBlock := { Seal := [], Body := [] } } (by decide)⟩

end ConsensusFactory

namespace Pbft

/-- A call of `Save` that runs alone, from its `repo.Lock()` to its
`repo.Unlock()`, does what the sequential `Save` does. -/
theorem save_thread_alone {σ : Type} [Inhabited σ] (st s : State σ) :
    runSchedule ({ locked := false, state := st }, [Thread.SaveCall s]) [0, 0, 0, 0]
      = some ({ locked := false, state := (StateRepository.Save { state := st } s).1.state },
              [Thread.SaveDone (StateRepository.Save { state := st } s).2]) := by
  by_cases h : st.StateID.ID = s.StateID.ID ∨ st.StateID.ID = ""
  · simp [runSchedule, Thread.step, StateRepository.Save, h]
  · simp [runSchedule, Thread.step, StateRepository.Save, h]

/-- While the lock is held, a call of `Save` cannot start, and calls of `Load` and
`Remove` step all the same. -/
theorem step_while_locked {σ : Type} [Inhabited σ] (st s : State σ) :
    Thread.step { locked := true, state := st } (Thread.SaveCall s) = none ∧
    Thread.step { locked := true, state := st } (Thread.LoadCall (σ := σ))
      = some ({ locked := true, state := st }, Thread.LoadTested (st.StateID.ID == "")) ∧
    Thread.step { locked := true, state := st } (Thread.RemoveCall (σ := σ))
      = some ({ locked := true, state := State.zero }, Thread.RemoveDone) := by
  simp [Thread.step]

/-- C18 fails on the code: `Load` and `Remove` never take the lock, so they
interleave with a `Save` in progress. First run, on a fresh repository with a
`Save` of round "r1" and a `Load`: after `Save` has taken the lock, `Load` tests
the stored id, which is still empty; `Save` stores its state; `Load` reads the
state for its return; `Save` unlocks. `Load` has returned the state of round "r1"
together with `ErrEmptyRepo`. Second run, with round "r1" stored, a `Save` by that
round and a `Remove`: after `Save` has taken the lock, `Remove` resets the state
while the call of `Save` holds the lock. -/
theorem load_and_remove_interleave_with_save :
    (runSchedule (σ := Nat)
        ({ locked := false, state := State.zero },
         [Thread.SaveCall { StateID := { ID := "r1" }, Round := 1 }, Thread.LoadCall])
        [0, 1]
      = some ({ locked := true, state := State.zero },
              [Thread.SaveLocked { StateID := { ID := "r1" }, Round := 1 },
               Thread.LoadTested true])) ∧
    (runSchedule (σ := Nat)
        ({ locked := false, state := State.zero },
         [Thread.SaveCall { StateID := { ID := "r1" }, Round := 1 }, Thread.LoadCall])
        [0, 1, 0, 0, 1, 0]
      = some ({ locked := false, state := { StateID := { ID := "r1" }, Round := 1 } },
              [Thread.SaveDone none,
               Thread.LoadDone { StateID := { ID := "r1" }, Round := 1 }
                 (some PbftError.ErrEmptyRepo)])) ∧
    (runSchedule (σ := Nat)
        ({ locked := false, state := { StateID := { ID := "r1" }, Round := 1 } },
         [Thread.SaveCall { StateID := { ID := "r1" }, Round := 2 }, Thread.RemoveCall])
        [0, 1]
      = some ({ locked := true, state := State.zero },
              [Thread.SaveLocked { StateID := { ID := "r1" }, Round := 2 },
               Thread.RemoveDone])) ∧
    Thread.holdsLock (Thread.SaveLocked (σ := Nat) { StateID := { ID := "r1" }, Round := 2 })
      = true := by
  decide

end Pbft

namespace ApiGateway

/-- The loop of `FindByID` returns the connection `c` when some key to visit holds
`c`, the id looked up is the id of `c`, and every entry to visit with that id is
`c`. -/
theorem findByIDLoop_unique (table : String → Option Connection) (c : Connection)
    (keys : List String) (k0 : String) (hk0 : k0 ∈ keys) (hc : table k0 = some c)
    (huniq : ∀ k ∈ keys, ∀ v, table k = some v → v.ConnectionID = c.ConnectionID → v = c) :
    findByIDLoop table c.ConnectionID keys = (c, none) := by
  induction keys with
  | nil => exact absurd hk0 (List.not_mem_nil k0)
  | cons k rest ih =>
    unfold findByIDLoop
    cases hv : table k with
    | none =>
      simp only []
      rcases List.mem_cons.1 hk0 with h | h
      · rw [h, hv] at hc
        cases hc
      · exact ih h (fun x hx => huniq x (List.mem_cons_of_mem k hx))
    | some v =>
      simp only []
      by_cases hid : c.ConnectionID = v.ConnectionID
      · rw [if_pos hid, huniq k (List.mem_cons_self k rest) v hv hid.symm]
      · rw [if_neg hid]
        rcases List.mem_cons.1 hk0 with h | h
        · rw [h, hv] at hc
          cases hc
          exact absurd rfl hid
        · exact ih h (fun x hx => huniq x (List.mem_cons_of_mem k hx))

/-- The new repository stores every entry under its own id, and `Save` and
`Remove` keep it so. -/
theorem keyedByID_kept (cr : ConnectionRepository) (c : Connection) (connID : String)
    (h : cr.KeyedByID) :
    NewConnectionRepository.KeyedByID ∧ (cr.Save c).1.KeyedByID ∧
    (cr.Remove connID).1.KeyedByID := by
  refine ⟨fun k v hv => (by cases hv), ?_, ?_⟩
  · unfold ConnectionRepository.Save
    cases hl : cr.ConnectionTable c.ConnectionID with
    | some _ => exact h
    | none =>
      intro k v hv
      simp only [] at hv
      by_cases hk : k = c.ConnectionID
      · rw [if_pos hk] at hv
        cases hv
        exact hk.symm
      · rw [if_neg hk] at hv
        exact h k v hv
  · intro k v hv
    simp only [ConnectionRepository.Remove] at hv
    by_cases hk : k = connID
    · rw [if_pos hk] at hv
      cases hv
    · rw [if_neg hk] at hv
      exact h k v hv

/-- Every table built from `NewConnectionRepository` by `Save` and `Remove` calls
stores every entry under its own id. -/
theorem runConnectionCalls_keyedByID (cr : ConnectionRepository) (calls : List ConnectionCall)
    (h : cr.KeyedByID) : (runConnectionCalls cr calls).KeyedByID := by
  induction calls generalizing cr with
  | nil => exact h
  | cons call rest ih =>
    refine ih (call.run cr) ?_
    cases call with
    | Save conn => exact (keyedByID_kept cr conn "" h).2.1
    | Remove connID => exact (keyedByID_kept cr Connection.zero connID h).2.2

/-- C21: `Save` never overwrites. For every table and every connection `c`,
`Save c` returns `ErrConnectionExists` exactly when the table has an entry under
the key `c.ConnectionID`, and then leaves the repository unchanged; otherwise it
returns nil and the table gains the entry `c.ConnectionID ↦ c` and nothing else
changes. After such a `Save c`, `FindByID c.ConnectionID` returns `c`, for every
order of its `range`: on every table built from `NewConnectionRepository` by
`Save` and `Remove` calls, and more generally on every table whose entries are
stored under their own ids, or in which no entry holds a connection with the id
of `c`. -/
theorem connection_save_never_overwrites (cr : ConnectionRepository) (c : Connection) :
    ((cr.Save c).2 = some ConnectionError.ErrConnectionExists ↔
      cr.ConnectionTable c.ConnectionID ≠ none) ∧
    ((cr.Save c).2 = some ConnectionError.ErrConnectionExists → (cr.Save c).1 = cr) ∧
    (cr.ConnectionTable c.ConnectionID = none →
      (cr.Save c).2 = none ∧
      (cr.Save c).1.ConnectionTable c.ConnectionID = some c ∧
      ∀ k, k ≠ c.ConnectionID → (cr.Save c).1.ConnectionTable k = cr.ConnectionTable k) ∧
    (cr.ConnectionTable c.ConnectionID = none →
      (∀ k v, cr.ConnectionTable k = some v → v.ConnectionID ≠ c.ConnectionID) →
      ∀ keys, (cr.Save c).1.RangeOrder keys →
        (cr.Save c).1.FindByID keys c.ConnectionID = (c, none)) ∧
    (cr.ConnectionTable c.ConnectionID = none → cr.KeyedByID →
      ∀ keys, (cr.Save c).1.RangeOrder keys →
        (cr.Save c).1.FindByID keys c.ConnectionID = (c, none)) ∧
    (∀ calls, cr = runConnectionCalls NewConnectionRepository calls →
      cr.ConnectionTable c.ConnectionID = none →
      ∀ keys, (cr.Save c).1.RangeOrder keys →
        (cr.Save c).1.FindByID keys c.ConnectionID = (c, none)) := by
  have hfind : cr.ConnectionTable c.ConnectionID = none →
      (∀ k v, cr.ConnectionTable k = some v → v.ConnectionID ≠ c.ConnectionID) →
      ∀ keys, (cr.Save c).1.RangeOrder keys →
        (cr.Save c).1.FindByID keys c.ConnectionID = (c, none) := by
    intro habs hfree keys hkeys
    have hsave : (cr.Save c).1.ConnectionTable =
        fun k => if k = c.ConnectionID then some c else cr.ConnectionTable k := by
      unfold ConnectionRepository.Save
      rw [habs]
    have hat : (cr.Save c).1.ConnectionTable c.ConnectionID = some c := by
      rw [hsave]
      simp
    have hmem : c.ConnectionID ∈ keys := (hkeys.2 c.ConnectionID).2 (by rw [hat]; simp)
    unfold ConnectionRepository.FindByID
    refine findByIDLoop_unique _ c keys c.ConnectionID hmem hat ?_
    intro k _ v hv hid
    rw [hsave] at hv
    by_cases hk : k = c.ConnectionID
    · simp only [hk, if_true, Option.some.injEq] at hv
      exact hv.symm
    · simp only [hk, if_false] at hv
      exact absurd hid (hfree k v hv)
  have hkeyedFind : cr.ConnectionTable c.ConnectionID = none → cr.KeyedByID →
      ∀ keys, (cr.Save c).1.RangeOrder keys →
        (cr.Save c).1.FindByID keys c.ConnectionID = (c, none) := by
    intro habs hkeyed
    refine hfind habs ?_
    intro k v hv hid
    have hk : k = c.ConnectionID := by rw [← hkeyed k v hv, hid]
    rw [hk, habs] at hv
    cases hv
  refine ⟨?_, ?_, ?_, hfind, hkeyedFind, ?_⟩
  · unfold ConnectionRepository.Save
    cases hl : cr.ConnectionTable c.ConnectionID <;> simp
  · unfold ConnectionRepository.Save
    cases hl : cr.ConnectionTable c.ConnectionID with
    | some _ => exact fun _ => rfl
    | none => exact fun h => by cases h
  · intro habs
    unfold ConnectionRepository.Save
    rw [habs]
    refine ⟨rfl, by simp, ?_⟩
    intro k hk
    simp [hk]
  · intro calls hcalls habs
    refine hkeyedFind habs ?_
    rw [hcalls]
    exact runConnectionCalls_keyedByID NewConnectionRepository calls
      (fun k v hv => by cases hv)

/-- Witness of C21: the connection "a" is saved in a new repository, then
the connection "b"; `FindByID "b"` returns it when `range` visits "a" first. -/
theorem connection_save_never_overwrites_witness :
    (NewConnectionRepository.Save { ConnectionID := "a", Address := "x" }).1.ConnectionTable "b"
      = none ∧
    ((NewConnectionRepository.Save { ConnectionID := "a", Address := "x" }).1.Save
        { ConnectionID := "b", Address := "y" }).1.RangeOrder ["a", "b"] ∧
    ((NewConnectionRepository.Save { ConnectionID := "a", Address := "x" }).1.Save
        { ConnectionID := "b", Address := "y" }).1.FindByID ["a", "b"] "b"
      = ({ ConnectionID := "b", Address := "y" }, none) := by
  have hrange : ((NewConnectionRepository.Save { ConnectionID := "a", Address := "x" }).1.Save
      { ConnectionID := "b", Address := "y" }).1.RangeOrder ["a", "b"] := by
    refine ⟨by decide, ?_⟩
    intro k
    show k ∈ ["a", "b"] ↔
      (if k = "b" then some ({ ConnectionID := "b", Address := "y" } : Connection)
       else if k = "a" then some { ConnectionID := "a", Address := "x" } else none) ≠ none
    by_cases hb : k = "b"
    · simp [hb]
    · by_cases ha : k = "a"
      · simp [ha]
      · simp [ha, hb]
  exact ⟨by decide, hrange,
    (connection_save_never_overwrites
      (NewConnectionRepository.Save { ConnectionID := "a", Address := "x" }).1
      { ConnectionID := "b", Address := "y" }).2.2.2.2.2
      [ConnectionCall.Save { ConnectionID := "a", Address := "x" }] rfl (by decide)
      ["a", "b"] hrange⟩

end ApiGateway
